import Mathlib

/-!
Verification of the tag registry of `src/tags.py` (Matroska tag processing).

The Python module defines a value object `Tag` and a lazily initialised
dual-keyed dictionary `TagDict`.  We embed it shallowly:

* Python object identity is modelled by an arena (`heap : List TagObj`);
  an object reference is its index (address) in the arena.  Allocating a
  new `Tag` appends to the arena.
* `TagDict._dict` is an association list from keys (int or string) to
  addresses, with Python-dict semantics: assignment replaces the value of
  an existing key in place, otherwise appends.
* The module-global mutable table `MATROSKA_TAG_DATA` (imported from the
  external `tagdata` module and mutated by `delayed_init`) is a component
  of the state, since `delayed_init` appends rows to it.
* Exceptions (`KeyError`, `ValueError`, `AssertionError`) become an
  `Except PyError` result; a raised exception carries no state, matching
  Python where the caller keeps the pre-call (unmutated) view only when
  the code raised before mutating.
-/

namespace Tags

/-- The codec classes imported inside `TagDict.delayed_init`
(src/tags.py lines 212-220); these are the names `locals()[cls_name]`
can resolve to a class. -/
inductive ClsHandle where
  | ElementUnsupported | ElementPlaceholder | ElementVoid | ElementMaster
  | ElementMasterDefer
  | ElementAtomic | ElementRaw | ElementUnsigned | ElementSigned
  | ElementBoolean | ElementEnum | ElementBitField | ElementFloat
  | ElementString | ElementUnicode | ElementDate | ElementID
  | ElementEBML | ElementSegment | ElementSeek | ElementInfo
  | ElementTrackEntry | ElementVideo | ElementAudio | ElementAttachedFile
  | ElementTag | ElementTargets | ElementSimpleTag | ElementEditionEntry
  | ElementChapterAtom
  deriving DecidableEq, Repr

/-- The `cls` attribute of a `Tag`.  In `delayed_init` it is a resolved
class (a `ClsHandle`); the unknown-id fallback in `__getitem__`
(src/tags.py line 145) stores the plain string 'ElementUnsupported'. -/
inductive Cls where
  | handle (c : ClsHandle)
  | strName (s : String)
  deriving DecidableEq, Repr

/-- A `default` attribute value: either a literal or a reference to a
sibling `Tag` (the overrides attach `self['PixelWidth']` etc.). -/
inductive DefaultVal where
  | lit (n : Int)
  | litStr (s : String)
  | tagRef (a : Nat)
  deriving DecidableEq, Repr

/-- A `values` attribute: enum dict (int keys to labels) or bitfield list. -/
inductive ValuesVal where
  | enumV (m : List (Int × String))
  | bitsV (l : List String)
  deriving DecidableEq, Repr

/-- The resolved `parent` attribute of a `Tag`: `None`, the string `"*"`,
or a reference to a concrete parent `Tag` (src/tags.py lines 63-67). -/
inductive Parent where
  | noneP
  | wildcard
  | ref (a : Nat)
  deriving DecidableEq, Repr

/-- The `parent` argument of `Tag.__init__`: `None`, `"*"`, or a parent
name to be resolved through the registry. -/
inductive ParentArg where
  | noneA
  | wildcardA
  | nameA (s : String)
  deriving DecidableEq, Repr

/-- The optional keyword arguments of `Tag.__init__` that the module's
logic reads (`setattr(self, name, val)` loop, src/tags.py lines 78-79).
`recursive` records attribute PRESENCE, since `is_child` only tests
`hasattr(self, 'recursive')`.  `header_size_min` / `data_size_min`
override the defaults set just before the kwargs loop. -/
structure Kwargs where
  header_size_min : Option Nat := none
  data_size_min : Option Nat := none
  default : Option DefaultVal := none
  recursive : Bool := false
  values : Option ValuesVal := none
  deriving DecidableEq, Repr

/-- The attribute record of one `Tag` object (src/tags.py lines 57-81).
`mandatoryField` is the stored `_mandatory`; the derived property
`mandatory` is `TagObj.mandatoryProp` below.  `default = none` models
`hasattr(self, 'default') == False`. -/
structure TagObj where
  ebml_id : Int
  name : String
  cls : Cls
  parent : Parent
  mandatoryField : Bool
  multiple : Bool
  webm : Bool
  minver : Nat
  maxver : Nat
  header_size_min : Nat
  data_size_min : Nat
  default : Option DefaultVal
  recursive : Bool
  values : Option ValuesVal
  children : List Nat
  deriving DecidableEq, Repr

/-- Dictionary keys of `TagDict._dict`: integer ids or name strings. -/
inductive KeyT where
  | idK (n : Int)
  | nameK (s : String)
  deriving DecidableEq, Repr

/-- Exceptions raised by the module. -/
inductive PyError where
  | keyError
  | valueError
  | assertionError
  deriving DecidableEq, Repr

/-- A row of the external static table `MATROSKA_TAG_DATA`: the keyword
dictionary passed to `Tag(**tag_data)` after `cls_name` resolution
(src/tags.py lines 232-245; the table itself lives in the external
`tagdata` module, spec section 6). -/
structure TagRow where
  ebml_id : Int
  name : String
  cls_name : String
  parent : ParentArg
  mandatory : Bool
  multiple : Bool
  webm : Bool
  minver : Nat
  maxver : Nat
  kwargs : Kwargs := {}
  deriving DecidableEq, Repr

/-- The mutable state: the object arena, the fields of the module-global
`TagDict` instance `MATROSKA_TAGS` (src/tags.py lines 131-137, 417), and
the external module-global table `MATROSKA_TAG_DATA` which
`delayed_init` mutates by appending rows. -/
structure RegState where
  heap : List TagObj
  dict : List (KeyT × Nat)
  initialized : Bool
  version : Nat
  is_webm : Bool
  tag_data : List TagRow
  deriving DecidableEq, Repr

/-- An arbitrary Python value handed to `insert`: a `Tag` reference or
any non-`Tag` object (represented by a description string). -/
inductive Value where
  | tagV (a : Nat)
  | other (s : String)
  deriving DecidableEq, Repr

/-- `INTERNAL_ID = 66` (src/tags.py line 419). -/
def INTERNAL_ID : Int := 66

/-- Python-dict lookup on the association list. -/
def dictFind : List (KeyT × Nat) → KeyT → Option Nat
  | [], _ => none
  | p :: rest, k => if p.1 = k then some p.2 else dictFind rest k

/-- Python-dict assignment: replace in place if the key is present,
otherwise append. -/
def dictSet (d : List (KeyT × Nat)) (k : KeyT) (v : Nat) : List (KeyT × Nat) :=
  match d with
  | [] => [(k, v)]
  | p :: rest => if p.1 = k then (k, v) :: rest else p :: dictSet rest k v

/-- `Tag.mandatory` property (src/tags.py lines 91-94):
`False if hasattr(self, 'default') else self._mandatory`. -/
def TagObj.mandatoryProp (t : TagObj) : Bool :=
  if t.default.isSome then false else t.mandatoryField

/-- `Tag.__eq__` (src/tags.py lines 96-97) between two `Tag` instances:
equality of `ebml_id`. -/
def tagEq (a b : TagObj) : Bool :=
  a.ebml_id == b.ebml_id

/-- `self.parent == tag` where `tag` is a `Tag` instance: `None == tag`
and `"*" == tag` are both `False`; a concrete parent compares by
`ebml_id` (through the heap).  A dangling address never arises from the
module's operations; we return `false` there. -/
def parentEqTag (heap : List TagObj) (p : Parent) (other : TagObj) : Bool :=
  match p with
  | .noneP => false
  | .wildcard => false
  | .ref a =>
    match heap[a]? with
    | some po => tagEq po other
    | none => false

/-- `Tag.is_child` (src/tags.py lines 112-120).  `tag` is the container:
`none` is level zero.  Comparisons follow Python `==` semantics as in
`parentEqTag`. -/
def is_child (heap : List TagObj) (t : TagObj) (tag : Option TagObj) : Bool :=
  match tag with
  | none => t.parent = .noneP || t.parent = .wildcard
  | some c =>
    if parentEqTag heap t.parent c || t.parent = .wildcard then true
    else t.recursive && tagEq c t

/-- `Tag.required_children` (src/tags.py lines 83-86): children whose
derived `mandatory` property is true.  The children list holds
references; we filter through the heap. -/
def required_children (heap : List TagObj) (t : TagObj) : List Nat :=
  t.children.filter (fun a =>
    match heap[a]? with
    | some c => c.mandatoryProp
    | none => false)

/-- `Tag.unique_children` (src/tags.py lines 87-90): children whose
`multiple` is false. -/
def unique_children (heap : List TagObj) (t : TagObj) : List Nat :=
  t.children.filter (fun a =>
    match heap[a]? with
    | some c => !c.multiple
    | none => false)

/-- Build the attribute record of `Tag.__init__` (defaults then kwargs;
src/tags.py lines 57-81) for an already-resolved parent. -/
def mkTagObj (ebml_id : Int) (name : String) (cls : Cls) (parent : Parent)
    (mandatory multiple webm : Bool) (minver maxver : Nat) (kw : Kwargs) : TagObj :=
  { ebml_id := ebml_id
    name := name
    cls := cls
    parent := parent
    mandatoryField := mandatory
    multiple := multiple
    webm := webm
    minver := minver
    maxver := maxver
    header_size_min := kw.header_size_min.getD 0
    data_size_min := kw.data_size_min.getD 0
    default := kw.default
    recursive := kw.recursive
    values := kw.values
    children := [] }

/-- `Tag.__init__` (src/tags.py lines 57-81) as a state transformer.  A
name parent is resolved by `MATROSKA_TAGS[parent]`; every in-module
construction happens with the `_initialized` flag already set (it is set
first thing in `delayed_init`), so that lookup reduces to a raw `_dict`
access raising `KeyError` on a missing name.  On success the new object
is appended to the arena and, for a concrete parent, its address is
appended to the parent's `children`. -/
def mkTag (s : RegState) (ebml_id : Int) (name : String) (cls : Cls)
    (parent : ParentArg) (mandatory multiple webm : Bool)
    (minver maxver : Nat) (kw : Kwargs) : Except PyError (RegState × Nat) :=
  let addr := s.heap.length
  match parent with
  | .noneA =>
    .ok ({ s with heap := s.heap ++
      [mkTagObj ebml_id name cls .noneP mandatory multiple webm minver maxver kw] }, addr)
  | .wildcardA =>
    .ok ({ s with heap := s.heap ++
      [mkTagObj ebml_id name cls .wildcard mandatory multiple webm minver maxver kw] }, addr)
  | .nameA p =>
    match dictFind s.dict (.nameK p) with
    | none => .error .keyError
    | some pa =>
      match s.heap[pa]? with
      | none => .error .keyError
      | some po =>
        .ok ({ s with heap :=
          (s.heap.set pa { po with children := po.children ++ [addr] }) ++
          [mkTagObj ebml_id name cls (.ref pa) mandatory multiple webm minver maxver kw] },
          addr)

/-- `TagDict.insert` (src/tags.py lines 171-190): store under
`ebml_id` then under `name`; a non-`Tag` argument raises `ValueError`
(before any mutation, so the registry is unchanged). -/
def TagDict.insert (s : RegState) (v : Value) : Except PyError RegState :=
  match v with
  | .tagV a =>
    match s.heap[a]? with
    | some t =>
      .ok { s with dict := dictSet (dictSet s.dict (.idK t.ebml_id) a) (.nameK t.name) a }
    | none => .error .valueError
  | .other _ => .error .valueError

/-- The body of `TagDict.__getitem__` after `delayed_init` has run
(src/tags.py lines 141-147): dictionary lookup; on `KeyError` with an
integer key, construct (do not store) a fresh fallback
`Tag(key, 'Unknown', 'ElementUnsupported', "*", False, True, True, 1, 4)`;
a missing name propagates the `KeyError`. -/
def getItemRaw (s : RegState) (k : KeyT) : Except PyError (RegState × Nat) :=
  match dictFind s.dict k with
  | some a => .ok (s, a)
  | none =>
    match k with
    | .idK n =>
      mkTag s n "Unknown" (.strName "ElementUnsupported") .wildcardA
        false true true 1 4 {}
    | .nameK _ => .error .keyError

/-- `locals()[cls_name]` inside `delayed_init`: resolve a codec class
name to one of the classes imported at src/tags.py lines 212-220; an
unknown name raises `KeyError`. -/
def resolveCls (s : String) : Option ClsHandle :=
  match s with
  | "ElementUnsupported" => some .ElementUnsupported
  | "ElementPlaceholder" => some .ElementPlaceholder
  | "ElementVoid" => some .ElementVoid
  | "ElementMaster" => some .ElementMaster
  | "ElementMasterDefer" => some .ElementMasterDefer
  | "ElementAtomic" => some .ElementAtomic
  | "ElementRaw" => some .ElementRaw
  | "ElementUnsigned" => some .ElementUnsigned
  | "ElementSigned" => some .ElementSigned
  | "ElementBoolean" => some .ElementBoolean
  | "ElementEnum" => some .ElementEnum
  | "ElementBitField" => some .ElementBitField
  | "ElementFloat" => some .ElementFloat
  | "ElementString" => some .ElementString
  | "ElementUnicode" => some .ElementUnicode
  | "ElementDate" => some .ElementDate
  | "ElementID" => some .ElementID
  | "ElementEBML" => some .ElementEBML
  | "ElementSegment" => some .ElementSegment
  | "ElementSeek" => some .ElementSeek
  | "ElementInfo" => some .ElementInfo
  | "ElementTrackEntry" => some .ElementTrackEntry
  | "ElementVideo" => some .ElementVideo
  | "ElementAudio" => some .ElementAudio
  | "ElementAttachedFile" => some .ElementAttachedFile
  | "ElementTag" => some .ElementTag
  | "ElementTargets" => some .ElementTargets
  | "ElementSimpleTag" => some .ElementSimpleTag
  | "ElementEditionEntry" => some .ElementEditionEntry
  | "ElementChapterAtom" => some .ElementChapterAtom
  | _ => none

/-- The profile filter of `delayed_init` (src/tags.py lines 233-240):
a row is loaded unless it is skipped by the webm flag (webm profile) or
the version range (matroska profile). -/
def rowActive (is_webm : Bool) (version : Nat) (r : TagRow) : Bool :=
  if is_webm then r.webm
  else !(version < r.minver || version > r.maxver)

/-- The body of one iteration of the row-loading loop of `delayed_init`
(src/tags.py lines 241-245): copy the row, resolve `cls_name` through
`locals()` (a `KeyError` if unknown), construct the `Tag` and `insert`
it. -/
def loadRow (s : RegState) (r : TagRow) : Except PyError RegState :=
  match resolveCls r.cls_name with
  | none => .error .keyError
  | some c =>
    match mkTag s r.ebml_id r.name (.handle c) r.parent r.mandatory
        r.multiple r.webm r.minver r.maxver r.kwargs with
    | .error e => .error e
    | .ok (s1, a) => TagDict.insert s1 (.tagV a)

/-- The row-loading loop of `delayed_init` (src/tags.py lines 232-245):
skip rows inactive under the current profile, load the rest in order. -/
def loadRows (s : RegState) (rows : List TagRow) : Except PyError RegState :=
  match rows with
  | [] => .ok s
  | r :: rest =>
    if rowActive s.is_webm s.version r then
      match loadRow s r with
      | .error e => .error e
      | .ok s2 => loadRows s2 rest
    else loadRows s rest

/-- One attribute assignment of an override entry
(`setattr(tag, attr_name, value)`, src/tags.py lines 400-401). -/
inductive OvrAttr where
  | clsA (c : Cls)
  | headerSizeMinA (n : Nat)
  | dataSizeMinA (n : Nat)
  | valuesA (v : ValuesVal)
  | defaultA (d : DefaultVal)
  deriving DecidableEq, Repr

/-- Apply one override attribute assignment to a tag object. -/
def setAttr (t : TagObj) : OvrAttr → TagObj
  | .clsA c => { t with cls := c }
  | .headerSizeMinA n => { t with header_size_min := n }
  | .dataSizeMinA n => { t with data_size_min := n }
  | .valuesA v => { t with values := v }
  | .defaultA d => { t with default := d }

/-- The `overrides` table of `delayed_init` (src/tags.py lines 247-395)
in source order.  Building the Python dict literal evaluates
`self['PixelWidth']`, `self['PixelHeight']` and `self['SamplingFrequency']`;
the resulting `Tag` references are the parameters `pw`, `ph`, `sf`. -/
def overridesList (pw ph sf : Nat) : List (String × List OvrAttr) :=
  [ ("EBML", [.clsA (.handle .ElementEBML)]),
    ("Void", [.clsA (.handle .ElementVoid)]),
    ("SignedElement", [.clsA (.handle .ElementID)]),
    ("Segment", [.clsA (.handle .ElementSegment), .headerSizeMinA 8]),
    ("Seek", [.clsA (.handle .ElementSeek)]),
    ("SeekID", [.clsA (.handle .ElementID)]),
    ("SeekPosition", [.dataSizeMinA 8]),
    ("Info", [.clsA (.handle .ElementInfo)]),
    ("Title", [.dataSizeMinA 100]),
    ("EditionEntry", [.clsA (.handle .ElementEditionEntry)]),
    ("ChapterAtom", [.clsA (.handle .ElementChapterAtom)]),
    ("ChapterTranslateCodec", [.clsA (.handle .ElementEnum),
      .valuesA (.enumV [(0, "Matroska Script"), (1, "DVD-menu")])]),
    ("SimpleBlock", [.clsA (.handle .ElementRaw)]),
    ("Block", [.clsA (.handle .ElementUnsupported)]),
    ("BlockVirtual", [.clsA (.handle .ElementUnsupported)]),
    ("BlockAdditional", [.clsA (.handle .ElementUnsupported)]),
    ("CodecState", [.clsA (.handle .ElementUnsupported)]),
    ("EncryptedBlock", [.clsA (.handle .ElementUnsupported)]),
    ("TrackEntry", [.clsA (.handle .ElementTrackEntry)]),
    ("TrackType", [.clsA (.handle .ElementEnum),
      .valuesA (.enumV [(0x1, "video"), (0x2, "audio"), (0x3, "complex"),
        (0x10, "logo"), (0x11, "subtitle"), (0x12, "buttons"), (0x20, "control")])]),
    ("TrackTranslateCodec", [.clsA (.handle .ElementEnum),
      .valuesA (.enumV [(0, "Matroska Script"), (1, "DVD-menu")])]),
    ("Video", [.clsA (.handle .ElementVideo)]),
    ("StereoMode", [.clsA (.handle .ElementEnum),
      .valuesA (.enumV [(0, "mono"), (1, "side-by-side (left)"),
        (2, "top-bottom (right)"), (3, "top-bottom (left)"),
        (4, "checkerboard (right)"), (5, "checkerboard (left)"),
        (6, "row interleaved (right)"), (7, "row interleaved (left)"),
        (8, "col interleaved (right)"), (9, "col interleaved (left)"),
        (10, "anaglyph (cyan/red)"), (11, "side-by-side (right)"),
        (12, "anaglyph (green/magenta)"), (13, "both (left)"),
        (14, "both (right)")])]),
    ("DisplayWidth", [.defaultA (.tagRef pw)]),
    ("DisplayHeight", [.defaultA (.tagRef ph)]),
    ("DisplayUnit", [.clsA (.handle .ElementEnum),
      .valuesA (.enumV [(0, "pixels"), (1, "centimeters"), (2, "inches"),
        (3, "Display Aspect Ratio")])]),
    ("AspectRatioType", [.clsA (.handle .ElementEnum),
      .valuesA (.enumV [(0, "free resizing"), (1, "keep aspect ratio"),
        (2, "fixed")])]),
    ("Colour", [.clsA (.handle .ElementRaw)]),
    ("Audio", [.clsA (.handle .ElementAudio)]),
    ("OutputSamplingFrequency", [.defaultA (.tagRef sf)]),
    ("TrackPlaneType", [.clsA (.handle .ElementEnum),
      .valuesA (.enumV [(0, "left eye"), (1, "right eye"), (2, "background")])]),
    ("ContentEncodingScope", [.clsA (.handle .ElementBitField),
      .valuesA (.bitsV ["all-frame-contents", "track-private-data",
        "the-next-ContentEncoding"])]),
    ("ContentEncodingType", [.clsA (.handle .ElementEnum),
      .valuesA (.enumV [(0, "compression"), (1, "encryption")])]),
    ("ContentCompAlgo", [.clsA (.handle .ElementEnum),
      .valuesA (.enumV [(0, "zlib"), (1, "bzlib"), (2, "lzo1x"),
        (3, "Header Stripping")])]),
    ("ContentEncAlgo", [.clsA (.handle .ElementEnum),
      .valuesA (.enumV [(0, "signed only"), (1, "DES"), (2, "3DES"),
        (3, "Twofish"), (4, "Blowfish"), (5, "AES")])]),
    ("ContentSigAlgo", [.clsA (.handle .ElementEnum),
      .valuesA (.enumV [(0, "signed only"), (1, "RSA")])]),
    ("ContentSigHashAlgo", [.clsA (.handle .ElementEnum),
      .valuesA (.enumV [(0, "signed only"), (1, "SHA1-160"), (2, "MD5")])]),
    ("Cues", [.clsA (.handle .ElementMasterDefer)]),
    ("Attachments", [.headerSizeMinA 4]),
    ("AttachedFile", [.clsA (.handle .ElementAttachedFile), .headerSizeMinA 4]),
    ("FileUID", [.clsA (.handle .ElementRaw)]),
    ("Tag", [.clsA (.handle .ElementTag)]),
    ("Targets", [.clsA (.handle .ElementTargets)]),
    ("SimpleTag", [.clsA (.handle .ElementSimpleTag)]) ]

/-- The override loop (src/tags.py lines 396-401): skip names not in the
registry; otherwise set each listed attribute on the registered object.
`tag_name not in self` and `self[tag_name]` reduce to raw dictionary
access since `_initialized` is already true here; the dangling-address
case never arises from the module's operations. -/
def applyOvrList (s : RegState) (l : List (String × List OvrAttr)) : RegState :=
  match l with
  | [] => s
  | (n, attrs) :: rest =>
    match dictFind s.dict (.nameK n) with
    | none => applyOvrList s rest
    | some a =>
      match s.heap[a]? with
      | none => applyOvrList s rest
      | some t => applyOvrList { s with heap := s.heap.set a (attrs.foldl setAttr t) } rest

/-- The override pass of `delayed_init` (src/tags.py lines 247-401):
building the table evaluates the three sibling lookups (a missing name
raises `KeyError`), then the loop applies the entries in order. -/
def applyOverrides (s : RegState) : Except PyError RegState :=
  match dictFind s.dict (.nameK "PixelWidth") with
  | none => .error .keyError
  | some pw =>
    match dictFind s.dict (.nameK "PixelHeight") with
    | none => .error .keyError
    | some ph =>
      match dictFind s.dict (.nameK "SamplingFrequency") with
      | none => .error .keyError
      | some sf => .ok (applyOvrList s (overridesList pw ph sf))

/-- The first internal-use row appended by `delayed_init`
(src/tags.py lines 223-226). -/
def libInternalRow : TagRow :=
  { ebml_id := INTERNAL_ID, name := "LibInternal",
    cls_name := "ElementPlaceholder", parent := .wildcardA,
    mandatory := false, multiple := true, webm := true, minver := 1, maxver := 4 }

/-- The second internal-use row appended by `delayed_init`
(src/tags.py lines 227-230); same reserved id 66 as `libInternalRow`. -/
def libInternal2Row : TagRow :=
  { ebml_id := INTERNAL_ID, name := "LibInternal2",
    cls_name := "ElementPlaceholder", parent := .wildcardA,
    mandatory := false, multiple := true, webm := true, minver := 1, maxver := 4 }

/-- `TagDict.delayed_init` (src/tags.py lines 204-401): a no-op when the
initialized flag is set; otherwise set the flag, append the two
internal-use rows to the external `MATROSKA_TAG_DATA` table, load the
(now extended) table through the profile filter, and apply the
overrides. -/
def delayed_init (s : RegState) : Except PyError RegState :=
  if s.initialized then .ok s
  else
    let s1 : RegState :=
      { s with
        initialized := true,
        tag_data := s.tag_data ++ [libInternalRow, libInternal2Row] }
    match loadRows s1 s1.tag_data with
    | .error e => .error e
    | .ok s2 => applyOverrides s2

/-- `TagDict.__getitem__` (src/tags.py lines 139-147): force lazy
initialization, then the raw lookup with the integer-key fallback. -/
def TagDict.getItem (s : RegState) (k : KeyT) : Except PyError (RegState × Nat) :=
  match delayed_init s with
  | .error e => .error e
  | .ok s1 => getItemRaw s1 k

/-- `TagDict.set_doc_type_and_version` (src/tags.py lines 403-413):
record the profile (asserting a known doc type), clear the dictionary,
reset the flag and re-run `delayed_init`. -/
def set_doc_type_and_version (s : RegState) (doc_type : String) (version : Nat) :
    Except PyError RegState :=
  if doc_type = "webm" then
    delayed_init
      { s with
        is_webm := true,
        version := version,
        initialized := false,
        dict := [] }
  else if doc_type = "matroska" then
    delayed_init
      { s with
        is_webm := false,
        version := version,
        initialized := false,
        dict := [] }
  else .error .assertionError

/-- The module-level state: `MATROSKA_TAGS = TagDict()`
(src/tags.py lines 131-137, 417) with the external static table as it
is when the module is imported. -/
def initState (table : List TagRow) : RegState :=
  { heap := [], dict := [], initialized := false, version := 4,
    is_webm := false, tag_data := table }

/-- The fallback descriptor synthesised by `__getitem__` for an unknown
integer key (src/tags.py lines 144-146). -/
def unknownTagObj (k : Int) : TagObj :=
  mkTagObj k "Unknown" (.strName "ElementUnsupported") .wildcard
    false true true 1 4 {}

/-- Extract the success state of an `Except`, with an explicit fallback
(used only to name concrete states in closed statements). -/
def getOkD (d : RegState) : Except PyError RegState → RegState
  | .ok s => s
  | .error _ => d

/-- Name-key consistency: every name key of `_dict` refers to an object
whose `name` attribute is that key.  `insert` establishes this and every
operation of the module preserves it. -/
def NameConsistent (s : RegState) : Prop :=
  ∀ n a, dictFind s.dict (.nameK n) = some a →
    ∃ t, s.heap[a]? = some t ∧ t.name = n

/-- Every dictionary entry refers to a live object satisfying `P`. -/
def DictObjs (P : TagObj → Prop) (s : RegState) : Prop :=
  ∀ k a, dictFind s.dict k = some a → ∃ t, s.heap[a]? = some t ∧ P t

/-- The attribute equation asserted by one override assignment. -/
def AttrHolds (t : TagObj) : OvrAttr → Prop
  | .clsA c => t.cls = c
  | .headerSizeMinA n => t.header_size_min = n
  | .dataSizeMinA n => t.data_size_min = n
  | .valuesA v => t.values = v
  | .defaultA d => t.default = d

/-- Which attribute an override assignment writes (to express that two
assignments of one entry target different attributes). -/
def kindOf : OvrAttr → Nat
  | .clsA _ => 0
  | .headerSizeMinA _ => 1
  | .dataSizeMinA _ => 2
  | .valuesA _ => 3
  | .defaultA _ => 4

/-- All assignments of an override entry hold on `t`. -/
def OvrApplied (attrs : List OvrAttr) (t : TagObj) : Prop :=
  ∀ attr ∈ attrs, AttrHolds t attr

/-- The static table as `delayed_init` sees it: the external table with
the two internal-use rows appended (src/tags.py lines 222-232). -/
def fullRows (s : RegState) : List TagRow :=
  s.tag_data ++ [libInternalRow, libInternal2Row]

/-- `n` successive profile changes to the same profile
(`set_doc_type_and_version` re-runs `delayed_init` each time). -/
def profileChanges (doc_type : String) (version : Nat) :
    RegState → Nat → Except PyError RegState
  | s, 0 => .ok s
  | s, n + 1 =>
    match set_doc_type_and_version s doc_type version with
    | .error e => .error e
    | .ok s1 => profileChanges doc_type version s1 n

/-- The object constructed from the first internal-use row. -/
def libInternalObj : TagObj :=
  mkTagObj INTERNAL_ID "LibInternal" (.handle .ElementPlaceholder) .wildcard
    false true true 1 4 {}

/-- The object constructed from the second internal-use row. -/
def libInternal2Obj : TagObj :=
  mkTagObj INTERNAL_ID "LibInternal2" (.handle .ElementPlaceholder) .wildcard
    false true true 1 4 {}

/-- A concrete static-table row used by the witnesses below. -/
def wRow (i : Int) (n : String) (webm : Bool) (minver maxver : Nat) : TagRow :=
  { ebml_id := i, name := n, cls_name := "ElementUnsigned", parent := .noneA,
    mandatory := false, multiple := true, webm := webm,
    minver := minver, maxver := maxver }

/-- A concrete stand-in for the external static table (the real
`MATROSKA_TAG_DATA` lives outside this repository): enough rows for
`delayed_init` to succeed (the override pass looks up PixelWidth,
PixelHeight and SamplingFrequency), one webm-ineligible row, one row
restricted to versions 3-4, and a Segment row whose base
`header_size_min` is the default 0. -/
def wTable : List TagRow :=
  [ wRow 1 "PixelWidth" true 1 4,
    wRow 2 "PixelHeight" true 1 4,
    wRow 3 "SamplingFrequency" true 1 4,
    { ebml_id := 8, name := "Segment", cls_name := "ElementMaster",
      parent := .noneA, mandatory := true, multiple := true, webm := true,
      minver := 1, maxver := 4 },
    wRow 9 "NonWebThing" false 1 4,
    wRow 10 "LateThing" true 3 4 ]

/-- A concrete tag-object value used by closed statements. -/
def cObj (i : Int) (n : String) : TagObj :=
  mkTagObj i n (.strName "X") .noneP false true true 1 4 {}

/-- A concrete initialized registry state holding two objects that share
the ebml id 66 under different names (exactly the shape of the two
internal-use rows of `delayed_init`). -/
def c1s0 : RegState :=
  { heap := [cObj 66 "A", cObj 66 "B"], dict := [], initialized := true,
    version := 4, is_webm := false, tag_data := [] }

/-- `c1s0` after inserting its first object. -/
def c1s1 : RegState := getOkD c1s0 (TagDict.insert c1s0 (.tagV 0))

/-- `c1s1` after inserting the second object. -/
def c1s2 : RegState := getOkD c1s0 (TagDict.insert c1s1 (.tagV 1))

/-- The override-entry names in table order (used to reason about the
override loop without fixing the three sibling-reference addresses). -/
def ovrNamesList : List String :=
  [ "EBML", "Void", "SignedElement", "Segment", "Seek", "SeekID",
    "SeekPosition", "Info", "Title", "EditionEntry", "ChapterAtom",
    "ChapterTranslateCodec", "SimpleBlock", "Block", "BlockVirtual",
    "BlockAdditional", "CodecState", "EncryptedBlock", "TrackEntry",
    "TrackType", "TrackTranslateCodec", "Video", "StereoMode",
    "DisplayWidth", "DisplayHeight", "DisplayUnit", "AspectRatioType",
    "Colour", "Audio", "OutputSamplingFrequency", "TrackPlaneType",
    "ContentEncodingScope", "ContentEncodingType", "ContentCompAlgo",
    "ContentEncAlgo", "ContentSigAlgo", "ContentSigHashAlgo", "Cues",
    "Attachments", "AttachedFile", "FileUID", "Tag", "Targets",
    "SimpleTag" ]

/-- The module state with the concrete stand-in table, as imported. -/
def w0 : RegState := initState wTable

/-- `w0` after its first lazy initialization. -/
def wS : RegState := getOkD w0 (delayed_init w0)

/-- `w0` after switching to the webm profile at version 4. -/
def wWebm : RegState := getOkD w0 (set_doc_type_and_version w0 "webm" 4)

/-- `w0` after switching to the matroska profile at version 2. -/
def wV2 : RegState := getOkD w0 (set_doc_type_and_version w0 "matroska" 2)

/-- `w0` after switching to the matroska profile at version 4. -/
def wV4 : RegState := getOkD w0 (set_doc_type_and_version w0 "matroska" 4)

/-- A concrete initialized state with one registered parent tag. -/
def c9s : RegState :=
  { heap := [cObj 1 "P"], dict := [(.nameK "P", 0)], initialized := true,
    version := 4, is_webm := false, tag_data := [] }

/-- The result of constructing a child of "P" in `c9s`. -/
def c9pair : RegState × Nat :=
  match mkTag c9s 2 "C" (.strName "X") (.nameA "P") true false true 1 4 {} with
  | .ok p => p
  | .error _ => (c9s, 0)

/-! ## Dictionary lemmas -/

theorem dictFind_dictSet_self (d : List (KeyT × Nat)) (k : KeyT) (v : Nat) :
    dictFind (dictSet d k v) k = some v := by
  induction d with
  | nil => simp [dictSet, dictFind]
  | cons p rest ih =>
    by_cases h : p.1 = k
    · simp [dictSet, h, dictFind]
    · simp [dictSet, h, dictFind, ih]

theorem dictFind_dictSet_ne (d : List (KeyT × Nat)) (k k' : KeyT) (v : Nat)
    (h : k' ≠ k) : dictFind (dictSet d k v) k' = dictFind d k' := by
  have hkk : ¬(k = k') := fun he => h he.symm
  induction d with
  | nil => simp [dictSet, dictFind, hkk]
  | cons p rest ih =>
    by_cases hp : p.1 = k
    · subst hp
      simp [dictSet, dictFind, hkk]
    · by_cases hp' : p.1 = k'
      · simp [dictSet, hp, dictFind, hp', hkk, h]
      · simp [dictSet, hp, dictFind, hp', ih]

/-! ## Basic facts about the operations -/

theorem insert_ok (s : RegState) (a : Nat) (t : TagObj) (h : s.heap[a]? = some t) :
    TagDict.insert s (.tagV a) =
      .ok { s with dict := dictSet (dictSet s.dict (.idK t.ebml_id) a) (.nameK t.name) a } := by
  simp [TagDict.insert, h]


theorem mkTag_ok_frame {s : RegState} {i : Int} {nm : String} {cls : Cls}
    {pr : ParentArg} {ma mu wb : Bool} {mn mx : Nat} {kw : Kwargs}
    {s' : RegState} {a : Nat}
    (h : mkTag s i nm cls pr ma mu wb mn mx kw = .ok (s', a)) :
    a = s.heap.length ∧ s'.dict = s.dict ∧ s'.initialized = s.initialized ∧
    s'.version = s.version ∧ s'.is_webm = s.is_webm ∧ s'.tag_data = s.tag_data ∧
    s'.heap.length = s.heap.length + 1 := by
  cases pr with
  | noneA =>
    simp only [mkTag, Except.ok.injEq, Prod.mk.injEq] at h
    obtain ⟨hs, ha⟩ := h
    subst hs; subst ha
    simp
  | wildcardA =>
    simp only [mkTag, Except.ok.injEq, Prod.mk.injEq] at h
    obtain ⟨hs, ha⟩ := h
    subst hs; subst ha
    simp
  | nameA p =>
    simp only [mkTag] at h
    split at h
    · cases h
    · split at h
      · cases h
      · rename_i pa hf po hg
        simp only [Except.ok.injEq, Prod.mk.injEq] at h
        obtain ⟨hs, ha⟩ := h
        subst hs; subst ha
        simp

theorem mkTag_ok_newObj {s : RegState} {i : Int} {nm : String} {cls : Cls}
    {pr : ParentArg} {ma mu wb : Bool} {mn mx : Nat} {kw : Kwargs}
    {s' : RegState} {a : Nat}
    (h : mkTag s i nm cls pr ma mu wb mn mx kw = .ok (s', a)) :
    ∃ pp : Parent, s'.heap[a]? = some (mkTagObj i nm cls pp ma mu wb mn mx kw) := by
  cases pr with
  | noneA =>
    simp only [mkTag, Except.ok.injEq, Prod.mk.injEq] at h
    obtain ⟨hs, ha⟩ := h
    subst hs; subst ha
    exact ⟨.noneP, List.getElem?_concat_length _ _⟩
  | wildcardA =>
    simp only [mkTag, Except.ok.injEq, Prod.mk.injEq] at h
    obtain ⟨hs, ha⟩ := h
    subst hs; subst ha
    exact ⟨.wildcard, List.getElem?_concat_length _ _⟩
  | nameA p =>
    simp only [mkTag] at h
    split at h
    · cases h
    · split at h
      · cases h
      · rename_i xa pa hf xb po hg
        simp only [Except.ok.injEq, Prod.mk.injEq] at h
        obtain ⟨hs, ha⟩ := h
        subst hs; subst ha
        refine ⟨.ref pa, ?_⟩
        have h2 := List.getElem?_concat_length
          (s.heap.set pa { po with children := po.children ++ [s.heap.length] })
          (mkTagObj i nm cls (.ref pa) ma mu wb mn mx kw)
        simp only [List.length_set] at h2
        exact h2

theorem mkTag_ok_oldObj {s : RegState} {i : Int} {nm : String} {cls : Cls}
    {pr : ParentArg} {ma mu wb : Bool} {mn mx : Nat} {kw : Kwargs}
    {s' : RegState} {a : Nat}
    (h : mkTag s i nm cls pr ma mu wb mn mx kw = .ok (s', a)) :
    ∀ (b : Nat) (u : TagObj), s.heap[b]? = some u →
      s'.heap[b]? = some u ∨
      s'.heap[b]? = some { u with children := u.children ++ [a] } := by
  intro b u hb
  have hblt : b < s.heap.length := by
    by_contra hc
    have hnone : s.heap[b]? = none := List.getElem?_eq_none (by omega)
    rw [hnone] at hb
    exact Option.noConfusion hb
  cases pr with
  | noneA =>
    simp only [mkTag, Except.ok.injEq, Prod.mk.injEq] at h
    obtain ⟨hs, ha⟩ := h
    subst hs
    exact Or.inl ((List.getElem?_append_left hblt).trans hb)
  | wildcardA =>
    simp only [mkTag, Except.ok.injEq, Prod.mk.injEq] at h
    obtain ⟨hs, ha⟩ := h
    subst hs
    exact Or.inl ((List.getElem?_append_left hblt).trans hb)
  | nameA p =>
    simp only [mkTag] at h
    split at h
    · cases h
    · split at h
      · cases h
      · rename_i xa pa hf xb po hg
        simp only [Except.ok.injEq, Prod.mk.injEq] at h
        obtain ⟨hs, ha⟩ := h
        subst hs; subst ha
        by_cases hbpa : b = pa
        · right
          subst hbpa
          rw [hb] at hg
          have hupo : u = po := Option.some.inj hg
          subst hupo
          have h2 : ((s.heap.set b { u with children := u.children ++ [s.heap.length] }) ++
              [mkTagObj i nm cls (.ref b) ma mu wb mn mx kw])[b]? =
              (s.heap.set b { u with children := u.children ++ [s.heap.length] })[b]? :=
            List.getElem?_append_left (by simpa using hblt)
          have h3 : (s.heap.set b { u with children := u.children ++ [s.heap.length] })[b]?
              = some { u with children := u.children ++ [s.heap.length] } :=
            List.getElem?_set_eq_of_lt _ hblt
          exact h2.trans h3
        · left
          have h2 : ((s.heap.set pa { po with children := po.children ++ [s.heap.length] }) ++
              [mkTagObj i nm cls (.ref pa) ma mu wb mn mx kw])[b]? =
              (s.heap.set pa { po with children := po.children ++ [s.heap.length] })[b]? :=
            List.getElem?_append_left (by simpa using hblt)
          have h3 : (s.heap.set pa { po with children := po.children ++ [s.heap.length] })[b]?
              = s.heap[b]? :=
            List.getElem?_set_ne (fun he => hbpa he.symm)
          exact h2.trans (h3.trans hb)

theorem delayed_init_of_initialized {s : RegState} (h : s.initialized = true) :
    delayed_init s = .ok s := by
  simp [delayed_init, h]

theorem getItem_of_initialized {s : RegState} (h : s.initialized = true) (k : KeyT) :
    TagDict.getItem s k = getItemRaw s k := by
  simp [TagDict.getItem, delayed_init_of_initialized h]

theorem getItemRaw_found {s : RegState} {k : KeyT} {a : Nat}
    (h : dictFind s.dict k = some a) : getItemRaw s k = .ok (s, a) := by
  simp [getItemRaw, h]

/-! ## Claim C1: dual-key identity -/

/-- C1, counterexample.  The claim says every descriptor registered via
`insert` is afterwards returned by BOTH the id lookup and the name
lookup.  The code violates this: a later `insert` of a descriptor with
the same id but a different name rebinds the id key (exactly what
`delayed_init` itself does with its two internal-use rows, which share
id 66).  Concretely: after inserting the object at address 0
(id 66, name "A") and then the object at address 1 (id 66, name "B"),
the first object is still registered (the name lookup returns it), but
the id lookup returns the second object, not the first. -/
theorem C1_counterexample :
    TagDict.insert c1s0 (.tagV 0) = .ok c1s1 ∧
    TagDict.insert c1s1 (.tagV 1) = .ok c1s2 ∧
    c1s2.heap[0]? = some (cObj 66 "A") ∧
    (cObj 66 "A").ebml_id = 66 ∧
    (cObj 66 "A").name = "A" ∧
    TagDict.getItem c1s2 (.nameK "A") = .ok (c1s2, 0) ∧
    TagDict.getItem c1s2 (.idK 66) = .ok (c1s2, 1) ∧
    (1 : Nat) ≠ 0 := by
  refine ⟨rfl, rfl, rfl, rfl, rfl, ?_, ?_, by decide⟩
  · rw [getItem_of_initialized rfl]
    rfl
  · rw [getItem_of_initialized rfl]
    rfl

/-- C1, amended: immediately after `insert(d)` (and as long as no later
`insert` re-uses d's id or name), looking the registry up by d's id and
by d's name both return d itself. -/
theorem C1_dual_key_after_insert (s : RegState) (a : Nat) (t : TagObj) (s' : RegState)
    (hinit : s.initialized = true) (ht : s.heap[a]? = some t)
    (hins : TagDict.insert s (.tagV a) = .ok s') :
    TagDict.getItem s' (.idK t.ebml_id) = .ok (s', a) ∧
    TagDict.getItem s' (.nameK t.name) = .ok (s', a) := by
  rw [insert_ok s a t ht] at hins
  have hs : s' = { s with
      dict := dictSet (dictSet s.dict (.idK t.ebml_id) a) (.nameK t.name) a } :=
    (Except.ok.inj hins).symm
  have hinit2 : s'.initialized = true := by rw [hs]; exact hinit
  have hdict : s'.dict =
      dictSet (dictSet s.dict (.idK t.ebml_id) a) (.nameK t.name) a := by rw [hs]
  constructor
  · rw [getItem_of_initialized hinit2]
    refine getItemRaw_found ?_
    rw [hdict]
    rw [dictFind_dictSet_ne _ _ _ _ (by simp)]
    exact dictFind_dictSet_self _ _ _
  · rw [getItem_of_initialized hinit2]
    refine getItemRaw_found ?_
    rw [hdict]
    exact dictFind_dictSet_self _ _ _

/-- C1, witness for the amended theorem at a concrete input. -/
theorem C1_dual_key_witness :
    TagDict.getItem c1s1 (.idK 66) = .ok (c1s1, 0) ∧
    TagDict.getItem c1s1 (.nameK "A") = .ok (c1s1, 0) :=
  C1_dual_key_after_insert c1s0 0 (cObj 66 "A") c1s1 rfl rfl rfl

/-! ## Claim C2: unknown integer lookup -/

/-- C2: for an integer key with no registered descriptor, lookup does
not fail: it returns a fresh descriptor with the claimed attributes
(id = key, global-wildcard parent, not required, repeatable,
web-eligible, versions 1-4), does not store it (the dictionary is the
record's unchanged `dict` field), and a second lookup of the same key
yields a distinct (new address) but equal-by-id instance. -/
theorem C2_unknown_id_lookup (s : RegState) (k : Int)
    (hinit : s.initialized = true) (hmiss : dictFind s.dict (.idK k) = none) :
    TagDict.getItem s (.idK k) =
      .ok ({ s with heap := s.heap ++ [unknownTagObj k] }, s.heap.length) ∧
    (unknownTagObj k).ebml_id = k ∧
    (unknownTagObj k).parent = .wildcard ∧
    (unknownTagObj k).mandatoryProp = false ∧
    (unknownTagObj k).multiple = true ∧
    (unknownTagObj k).webm = true ∧
    (unknownTagObj k).minver = 1 ∧
    (unknownTagObj k).maxver = 4 ∧
    TagDict.getItem { s with heap := s.heap ++ [unknownTagObj k] } (.idK k) =
      .ok ({ s with heap := (s.heap ++ [unknownTagObj k]) ++ [unknownTagObj k] },
        (s.heap ++ [unknownTagObj k]).length) ∧
    (s.heap ++ [unknownTagObj k]).length ≠ s.heap.length ∧
    tagEq (unknownTagObj k) (unknownTagObj k) = true := by
  refine ⟨?_, rfl, rfl, rfl, rfl, rfl, rfl, rfl, ?_, by simp, by simp [tagEq]⟩
  · rw [getItem_of_initialized hinit]
    simp [getItemRaw, hmiss, mkTag, unknownTagObj]
  · rw [getItem_of_initialized (show ({ s with heap := s.heap ++ [unknownTagObj k] } :
      RegState).initialized = true from hinit)]
    simp [getItemRaw, hmiss, mkTag, unknownTagObj]

/-- C2, witness at a concrete state and key. -/
theorem C2_witness :
    TagDict.getItem c1s0 (.idK 5) =
      .ok ({ c1s0 with heap := c1s0.heap ++ [unknownTagObj 5] }, c1s0.heap.length) ∧
    (unknownTagObj 5).mandatoryProp = false ∧
    (c1s0.heap ++ [unknownTagObj 5]).length ≠ c1s0.heap.length :=
  ⟨(C2_unknown_id_lookup c1s0 5 rfl rfl).1,
   (C2_unknown_id_lookup c1s0 5 rfl rfl).2.2.2.1,
   (C2_unknown_id_lookup c1s0 5 rfl rfl).2.2.2.2.2.2.2.2.2.1⟩

/-! ## Claim C5: derived required attribute -/

/-- C5: the derived `mandatory` property is true iff the stored
constructor-supplied flag is true and no default is present; attaching a
default (as the overrides do) forces it to false, and on a freshly
constructed object the property is the conjunction of the constructor
flag and the absence of a default keyword. -/
theorem C5_required_iff (t : TagObj) :
    (t.mandatoryProp = true ↔ (t.mandatoryField = true ∧ t.default = none)) ∧
    (∀ d : DefaultVal, (setAttr t (.defaultA d)).mandatoryProp = false) ∧
    (∀ (i : Int) (nm : String) (cls : Cls) (pp : Parent) (ma mu wb : Bool)
        (mn mx : Nat) (kw : Kwargs),
      (mkTagObj i nm cls pp ma mu wb mn mx kw).mandatoryProp = true ↔
        (ma = true ∧ kw.default = none)) := by
  refine ⟨?_, ?_, ?_⟩
  · unfold TagObj.mandatoryProp
    cases hd : t.default <;> simp [hd]
  · intro d
    simp [setAttr, TagObj.mandatoryProp]
  · intro i nm cls pp ma mu wb mn mx kw
    unfold TagObj.mandatoryProp mkTagObj
    cases hd : kw.default <;> simp [hd]

/-! ## Claim C6: containment check -/

/-- C6: `is_child` returns true exactly in the three circumstances of
the claim (level-zero container with none-or-global parent; parent
equal to the container or global; container equal to the tag itself
with the recursive flag present), and consequently a tag with the
global-wildcard parent is accepted by every container including the
top level. -/
theorem C6_is_child_characterization (heap : List TagObj) (t : TagObj) :
    (∀ c : Option TagObj,
      is_child heap t c = true ↔
        ((c = none ∧ (t.parent = .noneP ∨ t.parent = .wildcard)) ∨
         (∃ co, c = some co ∧
           (parentEqTag heap t.parent co = true ∨ t.parent = .wildcard ∨
            (t.recursive = true ∧ tagEq co t = true))))) ∧
    (t.parent = .wildcard → ∀ c : Option TagObj, is_child heap t c = true) := by
  have hchar : ∀ c : Option TagObj,
      is_child heap t c = true ↔
        ((c = none ∧ (t.parent = .noneP ∨ t.parent = .wildcard)) ∨
         (∃ co, c = some co ∧
           (parentEqTag heap t.parent co = true ∨ t.parent = .wildcard ∨
            (t.recursive = true ∧ tagEq co t = true)))) := by
    intro c
    cases c with
    | none => simp [is_child]
    | some co =>
      simp only [is_child]
      by_cases h1 : (parentEqTag heap t.parent co || decide (t.parent = Parent.wildcard)) = true
      · rw [if_pos h1]
        simp only [Bool.or_eq_true, decide_eq_true_eq] at h1
        simp
        tauto
      · rw [if_neg h1]
        simp only [Bool.or_eq_true, decide_eq_true_eq, not_or] at h1
        simp [h1.1, h1.2]
  refine ⟨hchar, ?_⟩
  intro hw c
  rw [hchar c]
  cases c with
  | none => exact Or.inl ⟨rfl, Or.inr hw⟩
  | some co => exact Or.inr ⟨co, rfl, Or.inr (Or.inl hw)⟩

/-- C6, witness: a tag with the global-wildcard parent is accepted at
top level and inside an arbitrary container. -/
theorem C6_witness :
    is_child [] (unknownTagObj 7) none = true ∧
    is_child [] (unknownTagObj 7) (some (cObj 1 "Z")) = true :=
  ⟨(C6_is_child_characterization [] (unknownTagObj 7)).2 rfl none,
   (C6_is_child_characterization [] (unknownTagObj 7)).2 rfl (some (cObj 1 "Z"))⟩

/-! ## Claim C8: failure modes -/

/-- C8: inserting a non-Tag value fails with the type-mismatch error
(the code raises before mutating anything, so the registry is
unchanged); looking up an unregistered name fails with the missing-key
error; and lookup by an integer key always succeeds. -/
theorem C8_failure_modes (s : RegState) (x : String) (nm : String) (k : Int)
    (hinit : s.initialized = true) (hmiss : dictFind s.dict (.nameK nm) = none) :
    TagDict.insert s (.other x) = .error .valueError ∧
    TagDict.getItem s (.nameK nm) = .error .keyError ∧
    (∃ s2 a, TagDict.getItem s (.idK k) = .ok (s2, a)) := by
  refine ⟨rfl, ?_, ?_⟩
  · rw [getItem_of_initialized hinit]
    simp [getItemRaw, hmiss]
  · rw [getItem_of_initialized hinit]
    cases hf : dictFind s.dict (.idK k) with
    | some a => exact ⟨s, a, getItemRaw_found hf⟩
    | none =>
      exact ⟨{ s with heap := s.heap ++ [unknownTagObj k] }, s.heap.length,
        by simp [getItemRaw, hf, mkTag, unknownTagObj]⟩

/-- C8, witness at a concrete state. -/
theorem C8_witness :
    TagDict.insert c1s0 (.other "junk") = .error .valueError ∧
    TagDict.getItem c1s0 (.nameK "Nope") = .error .keyError :=
  ⟨(C8_failure_modes c1s0 "junk" "Nope" 3 rfl rfl).1,
   (C8_failure_modes c1s0 "junk" "Nope" 3 rfl rfl).2.1⟩

/-! ## Elimination and frame lemmas for the loading pipeline -/

theorem insert_tagV_elim {s s' : RegState} {a : Nat}
    (h : TagDict.insert s (.tagV a) = .ok s') :
    ∃ t, s.heap[a]? = some t ∧
      s' = { s with dict := dictSet (dictSet s.dict (.idK t.ebml_id) a) (.nameK t.name) a } := by
  have h2 : (match s.heap[a]? with
      | some t => Except.ok { s with
          dict := dictSet (dictSet s.dict (.idK t.ebml_id) a) (.nameK t.name) a }
      | none => (Except.error .valueError : Except PyError RegState)) = .ok s' := h
  cases hg : s.heap[a]? with
  | none =>
    exfalso
    rw [hg] at h2
    exact Except.noConfusion h2
  | some t =>
    rw [hg] at h2
    exact ⟨t, rfl, (Except.ok.inj h2).symm⟩

theorem insert_tagV_frame {s s' : RegState} {a : Nat}
    (h : TagDict.insert s (.tagV a) = .ok s') :
    s'.heap = s.heap ∧ s'.initialized = s.initialized ∧ s'.version = s.version ∧
    s'.is_webm = s.is_webm ∧ s'.tag_data = s.tag_data := by
  obtain ⟨t, hg, hs⟩ := insert_tagV_elim h
  subst hs
  exact ⟨rfl, rfl, rfl, rfl, rfl⟩

theorem loadRow_ok_elim {s s' : RegState} {r : TagRow}
    (h : loadRow s r = .ok s') :
    ∃ c s1 a, resolveCls r.cls_name = some c ∧
      mkTag s r.ebml_id r.name (.handle c) r.parent r.mandatory r.multiple
        r.webm r.minver r.maxver r.kwargs = .ok (s1, a) ∧
      TagDict.insert s1 (.tagV a) = .ok s' := by
  unfold loadRow at h
  cases hc : resolveCls r.cls_name with
  | none =>
    rw [hc] at h
    exact Except.noConfusion h
  | some c =>
    rw [hc] at h
    have h2 : (match mkTag s r.ebml_id r.name (.handle c) r.parent r.mandatory
          r.multiple r.webm r.minver r.maxver r.kwargs with
        | .error e => (Except.error e : Except PyError RegState)
        | .ok (s1, a) => TagDict.insert s1 (.tagV a)) = .ok s' := h
    cases hm : mkTag s r.ebml_id r.name (.handle c) r.parent r.mandatory
        r.multiple r.webm r.minver r.maxver r.kwargs with
    | error e =>
      rw [hm] at h2
      exact Except.noConfusion h2
    | ok p =>
      obtain ⟨s1, a⟩ := p
      rw [hm] at h2
      exact ⟨c, s1, a, rfl, hm, h2⟩

theorem loadRows_cons_elim {s s' : RegState} {r : TagRow} {rest : List TagRow}
    (h : loadRows s (r :: rest) = .ok s') :
    (rowActive s.is_webm s.version r = true ∧
      ∃ c s1 a s2, resolveCls r.cls_name = some c ∧
        mkTag s r.ebml_id r.name (.handle c) r.parent r.mandatory r.multiple
          r.webm r.minver r.maxver r.kwargs = .ok (s1, a) ∧
        TagDict.insert s1 (.tagV a) = .ok s2 ∧
        loadRows s2 rest = .ok s') ∨
    (rowActive s.is_webm s.version r = false ∧ loadRows s rest = .ok s') := by
  unfold loadRows at h
  by_cases ha : rowActive s.is_webm s.version r = true
  · rw [if_pos ha] at h
    left
    refine ⟨ha, ?_⟩
    cases hl : loadRow s r with
    | error e =>
      rw [hl] at h
      exact Except.noConfusion h
    | ok s2 =>
      rw [hl] at h
      obtain ⟨c, s1, a, hc, hm, hi⟩ := loadRow_ok_elim hl
      exact ⟨c, s1, a, s2, hc, hm, hi, h⟩
  · rw [if_neg ha] at h
    right
    exact ⟨Bool.not_eq_true _ ▸ ha, h⟩

theorem loadRows_const {rows : List TagRow} : ∀ {s s' : RegState},
    loadRows s rows = .ok s' →
    s'.initialized = s.initialized ∧ s'.version = s.version ∧
    s'.is_webm = s.is_webm ∧ s'.tag_data = s.tag_data := by
  induction rows with
  | nil =>
    intro s s' h
    have hs := (Except.ok.inj h).symm
    subst hs
    exact ⟨rfl, rfl, rfl, rfl⟩
  | cons r rest ih =>
    intro s s' h
    rcases loadRows_cons_elim h with ⟨ha, c, s1, a, s2, hc, hm, hi, hrest⟩ | ⟨ha, hrest⟩
    · have h1 := mkTag_ok_frame hm
      have h2 := insert_tagV_frame hi
      have h3 := ih hrest
      refine ⟨?_, ?_, ?_, ?_⟩
      · rw [h3.1, h2.2.1, h1.2.2.1]
      · rw [h3.2.1, h2.2.2.1, h1.2.2.2.1]
      · rw [h3.2.2.1, h2.2.2.2.1, h1.2.2.2.2.1]
      · rw [h3.2.2.2, h2.2.2.2.2, h1.2.2.2.2.2.1]
    · exact ih hrest

theorem applyOvrList_cons_eq (s : RegState) (n : String) (attrs : List OvrAttr)
    (rest : List (String × List OvrAttr)) :
    applyOvrList s ((n, attrs) :: rest) =
      (match dictFind s.dict (.nameK n) with
        | none => applyOvrList s rest
        | some a =>
          match s.heap[a]? with
          | none => applyOvrList s rest
          | some t =>
            applyOvrList { s with heap := s.heap.set a (attrs.foldl setAttr t) } rest) :=
  rfl

theorem applyOvrList_cons_none {s : RegState} {n : String} {attrs : List OvrAttr}
    {rest : List (String × List OvrAttr)}
    (hf : dictFind s.dict (.nameK n) = none) :
    applyOvrList s ((n, attrs) :: rest) = applyOvrList s rest := by
  rw [applyOvrList_cons_eq, hf]

theorem applyOvrList_cons_found {s : RegState} {n : String} {attrs : List OvrAttr}
    {rest : List (String × List OvrAttr)} {a : Nat} {t : TagObj}
    (hf : dictFind s.dict (.nameK n) = some a) (hg : s.heap[a]? = some t) :
    applyOvrList s ((n, attrs) :: rest) =
      applyOvrList { s with heap := s.heap.set a (attrs.foldl setAttr t) } rest := by
  rw [applyOvrList_cons_eq, hf]
  show (match s.heap[a]? with
    | none => applyOvrList s rest
    | some t => applyOvrList { s with heap := s.heap.set a (attrs.foldl setAttr t) } rest) = _
  rw [hg]

theorem applyOvrList_cons_dangling {s : RegState} {n : String} {attrs : List OvrAttr}
    {rest : List (String × List OvrAttr)} {a : Nat}
    (hf : dictFind s.dict (.nameK n) = some a) (hg : s.heap[a]? = none) :
    applyOvrList s ((n, attrs) :: rest) = applyOvrList s rest := by
  rw [applyOvrList_cons_eq, hf]
  show (match s.heap[a]? with
    | none => applyOvrList s rest
    | some t => applyOvrList { s with heap := s.heap.set a (attrs.foldl setAttr t) } rest) = _
  rw [hg]

theorem applyOvrList_frame : ∀ (l : List (String × List OvrAttr)) (s : RegState),
    (applyOvrList s l).dict = s.dict ∧
    (applyOvrList s l).initialized = s.initialized ∧
    (applyOvrList s l).version = s.version ∧
    (applyOvrList s l).is_webm = s.is_webm ∧
    (applyOvrList s l).tag_data = s.tag_data := by
  intro l
  induction l with
  | nil => intro s; simp [applyOvrList]
  | cons q rest ih =>
    intro s
    obtain ⟨n, attrs⟩ := q
    cases hf : dictFind s.dict (.nameK n) with
    | none => rw [applyOvrList_cons_none hf]; exact ih s
    | some a =>
      cases hg : s.heap[a]? with
      | none => rw [applyOvrList_cons_dangling hf hg]; exact ih s
      | some t =>
        rw [applyOvrList_cons_found hf hg]
        exact ih { s with heap := s.heap.set a (attrs.foldl setAttr t) }

theorem applyOverrides_ok_elim {s s' : RegState} (h : applyOverrides s = .ok s') :
    ∃ pw ph sf, dictFind s.dict (.nameK "PixelWidth") = some pw ∧
      dictFind s.dict (.nameK "PixelHeight") = some ph ∧
      dictFind s.dict (.nameK "SamplingFrequency") = some sf ∧
      s' = applyOvrList s (overridesList pw ph sf) := by
  unfold applyOverrides at h
  cases h1 : dictFind s.dict (.nameK "PixelWidth") with
  | none => rw [h1] at h; exact Except.noConfusion h
  | some pw =>
    rw [h1] at h
    cases h2 : dictFind s.dict (.nameK "PixelHeight") with
    | none => rw [h2] at h; exact Except.noConfusion h
    | some ph =>
      rw [h2] at h
      cases h3 : dictFind s.dict (.nameK "SamplingFrequency") with
      | none => rw [h3] at h; exact Except.noConfusion h
      | some sf =>
        rw [h3] at h
        exact ⟨pw, ph, sf, rfl, rfl, rfl, (Except.ok.inj h).symm⟩

theorem applyOverrides_ok_frame {s s' : RegState} (h : applyOverrides s = .ok s') :
    s'.dict = s.dict ∧ s'.initialized = s.initialized ∧ s'.version = s.version ∧
    s'.is_webm = s.is_webm ∧ s'.tag_data = s.tag_data := by
  obtain ⟨pw, ph, sf, h1, h2, h3, hs⟩ := applyOverrides_ok_elim h
  subst hs
  exact applyOvrList_frame (overridesList pw ph sf) s

theorem delayed_init_elim {s s' : RegState} (hi : s.initialized = false)
    (h : delayed_init s = .ok s') :
    ∃ s2, loadRows
        { s with
          initialized := true,
          tag_data := s.tag_data ++ [libInternalRow, libInternal2Row] }
        (s.tag_data ++ [libInternalRow, libInternal2Row]) = .ok s2 ∧
      applyOverrides s2 = .ok s' := by
  unfold delayed_init at h
  rw [hi] at h
  simp only [Bool.false_eq_true, if_false] at h
  cases hl : loadRows
      { s with
        initialized := true,
        tag_data := s.tag_data ++ [libInternalRow, libInternal2Row] }
      (s.tag_data ++ [libInternalRow, libInternal2Row]) with
  | error e => rw [hl] at h; exact Except.noConfusion h
  | ok s2 =>
    rw [hl] at h
    exact ⟨s2, rfl, h⟩

theorem delayed_init_ok_initialized {s s' : RegState} (h : delayed_init s = .ok s') :
    s'.initialized = true := by
  by_cases hi : s.initialized = true
  · rw [delayed_init_of_initialized hi] at h
    have hs := (Except.ok.inj h).symm
    subst hs
    exact hi
  · have hi2 : s.initialized = false := Bool.not_eq_true _ ▸ hi
    obtain ⟨s2, hl, ho⟩ := delayed_init_elim hi2 h
    have h1 := loadRows_const hl
    have h2 := applyOverrides_ok_frame ho
    rw [h2.2.1, h1.1]

/-! ## Claim C7: initialization exactly once -/

/-- C7: a second invocation of `delayed_init` without an intervening
profile change is a no-op: after a successful initialization the flag
is set, so the second call returns the state unchanged (no table walk,
no codec resolution, same registry, same external table). -/
theorem C7_init_once (s s' : RegState) (h : delayed_init s = .ok s') :
    delayed_init s' = .ok s' :=
  delayed_init_of_initialized (delayed_init_ok_initialized h)

/-- C7, witness at the concrete stand-in table. -/
theorem C7_witness : delayed_init wS = .ok wS :=
  C7_init_once w0 wS rfl

/-! ## Claim C9: child lists and derived views -/

theorem mkTag_nameA_elim {s : RegState} {i : Int} {nm : String} {cls : Cls}
    {p : String} {ma mu wb : Bool} {mn mx : Nat} {kw : Kwargs}
    {s' : RegState} {a : Nat}
    (h : mkTag s i nm cls (.nameA p) ma mu wb mn mx kw = .ok (s', a)) :
    ∃ (pa : Nat) (po : TagObj), dictFind s.dict (.nameK p) = some pa ∧ s.heap[pa]? = some po ∧
      a = s.heap.length ∧
      s' = { s with heap :=
        (s.heap.set pa { po with children := po.children ++ [a] }) ++
        [mkTagObj i nm cls (.ref pa) ma mu wb mn mx kw] } := by
  simp only [mkTag] at h
  split at h
  · cases h
  · split at h
    · cases h
    · rename_i xa pa hf xb po hg
      simp only [Except.ok.injEq, Prod.mk.injEq] at h
      obtain ⟨hs, ha⟩ := h
      subst ha
      exact ⟨pa, po, hf, hg, rfl, hs.symm⟩

/-- C9: constructing a descriptor with a concrete parent appends it
exactly once at the end of that parent's child list (fresh address, so
it cannot already occur there); and membership in the
required-children / unique-children views of any parent is exactly the
derived mandatory property / the negation of the repeatable flag of the
child. -/
theorem C9_child_lists (s : RegState) (i : Int) (nm : String) (cls : Cls)
    (p : String) (ma mu wb : Bool) (mn mx : Nat) (kw : Kwargs)
    (pa : Nat) (po : TagObj) (s' : RegState) (a : Nat)
    (hbound : ∀ u ∈ s.heap, ∀ c ∈ u.children, c < s.heap.length)
    (hp : dictFind s.dict (.nameK p) = some pa)
    (hpo : s.heap[pa]? = some po)
    (hmk : mkTag s i nm cls (.nameA p) ma mu wb mn mx kw = .ok (s', a)) :
    s'.heap[pa]? = some { po with children := po.children ++ [a] } ∧
    (po.children ++ [a]).count a = 1 ∧
    (∀ (q : TagObj) (b : Nat) (u : TagObj), b ∈ q.children → s'.heap[b]? = some u →
      ((b ∈ required_children s'.heap q ↔ u.mandatoryProp = true) ∧
       (b ∈ unique_children s'.heap q ↔ u.multiple = false))) := by
  obtain ⟨pa2, po2, hf2, hg2, ha, hs⟩ := mkTag_nameA_elim hmk
  rw [hp] at hf2
  have hpa : pa2 = pa := (Option.some.inj hf2).symm
  rw [hpa] at hg2 hs
  rw [hpo] at hg2
  have hpo2 : po2 = po := (Option.some.inj hg2).symm
  rw [hpo2] at hs
  have hpalt : pa < s.heap.length := by
    by_contra hc
    have hnone : s.heap[pa]? = none := List.getElem?_eq_none (by omega)
    rw [hnone] at hpo
    exact Option.noConfusion hpo
  refine ⟨?_, ?_, ?_⟩
  · subst hs
    have h2 : ((s.heap.set pa { po with children := po.children ++ [a] }) ++
        [mkTagObj i nm cls (.ref pa) ma mu wb mn mx kw])[pa]? =
        (s.heap.set pa { po with children := po.children ++ [a] })[pa]? :=
      List.getElem?_append_left (by simpa using hpalt)
    exact h2.trans (List.getElem?_set_eq_of_lt _ hpalt)
  · have hnotmem : a ∉ po.children := by
      intro hmem
      have hlt := hbound po (List.getElem?_mem hpo) a hmem
      omega
    rw [List.count_append, List.count_eq_zero.mpr hnotmem]
    simp
  · intro q b u hbq hbu
    constructor
    · unfold required_children
      rw [List.mem_filter]
      constructor
      · rintro ⟨h1, h2⟩
        have h3 : (match s'.heap[b]? with
            | some c => c.mandatoryProp
            | none => false) = true := h2
        rw [hbu] at h3
        exact h3
      · intro h2
        refine ⟨hbq, ?_⟩
        show (match s'.heap[b]? with
          | some c => c.mandatoryProp
          | none => false) = true
        rw [hbu]
        exact h2
    · unfold unique_children
      rw [List.mem_filter]
      constructor
      · rintro ⟨h1, h2⟩
        have h3 : (match s'.heap[b]? with
            | some c => !c.multiple
            | none => false) = true := h2
        rw [hbu] at h3
        simpa using h3
      · intro h2
        refine ⟨hbq, ?_⟩
        show (match s'.heap[b]? with
          | some c => !c.multiple
          | none => false) = true
        rw [hbu]
        simpa using h2

/-- C9, witness: constructing a child of the registered parent "P". -/
theorem C9_witness :
    c9pair.1.heap[0]? =
      some { cObj 1 "P" with children := (cObj 1 "P").children ++ [c9pair.2] } ∧
    ((cObj 1 "P").children ++ [c9pair.2]).count c9pair.2 = 1 :=
  ⟨(C9_child_lists c9s 2 "C" (.strName "X") "P" true false true 1 4 {} 0 (cObj 1 "P")
      c9pair.1 c9pair.2 (by decide) rfl rfl rfl).1,
   (C9_child_lists c9s 2 "C" (.strName "X") "P" true false true 1 4 {} 0 (cObj 1 "P")
      c9pair.1 c9pair.2 (by decide) rfl rfl rfl).2.1⟩

/-! ## Preservation of per-object attributes through the pipeline -/

theorem dictObjs_insert {P : TagObj → Prop} {s s' : RegState} {a : Nat} {t : TagObj}
    (hd : DictObjs P s) (ht : s.heap[a]? = some t) (hP : P t)
    (h : TagDict.insert s (.tagV a) = .ok s') : DictObjs P s' := by
  obtain ⟨t2, hg, hs⟩ := insert_tagV_elim h
  rw [ht] at hg
  have ht2 : t2 = t := (Option.some.inj hg).symm
  rw [ht2] at hs
  subst hs
  intro k b hf
  have hf2 : dictFind (dictSet (dictSet s.dict (.idK t.ebml_id) a) (.nameK t.name) a) k
      = some b := hf
  by_cases h1 : k = .nameK t.name
  · subst h1
    rw [dictFind_dictSet_self] at hf2
    have hb : b = a := (Option.some.inj hf2).symm
    subst hb
    exact ⟨t, ht, hP⟩
  · rw [dictFind_dictSet_ne _ _ _ _ h1] at hf2
    by_cases h2 : k = .idK t.ebml_id
    · subst h2
      rw [dictFind_dictSet_self] at hf2
      have hb : b = a := (Option.some.inj hf2).symm
      subst hb
      exact ⟨t, ht, hP⟩
    · rw [dictFind_dictSet_ne _ _ _ _ h2] at hf2
      exact hd k b hf2

theorem dictObjs_mkTag {P : TagObj → Prop}
    (hPc : ∀ (u : TagObj) (l : List Nat), P u → P { u with children := l })
    {s : RegState} {i : Int} {nm : String} {cls : Cls} {pr : ParentArg}
    {ma mu wb : Bool} {mn mx : Nat} {kw : Kwargs} {s' : RegState} {a : Nat}
    (hd : DictObjs P s) (h : mkTag s i nm cls pr ma mu wb mn mx kw = .ok (s', a)) :
    DictObjs P s' := by
  intro k b hf
  rw [(mkTag_ok_frame h).2.1] at hf
  obtain ⟨t, ht, hP⟩ := hd k b hf
  rcases mkTag_ok_oldObj h b t ht with h1 | h1
  · exact ⟨t, h1, hP⟩
  · exact ⟨_, h1, hPc t _ hP⟩

theorem dictObjs_loadRows {P : TagObj → Prop}
    (hPc : ∀ (u : TagObj) (l : List Nat), P u → P { u with children := l }) :
    ∀ {rows : List TagRow} {s s' : RegState},
    (∀ r ∈ rows, rowActive s.is_webm s.version r = true →
      ∀ (cls : Cls) (pp : Parent),
        P (mkTagObj r.ebml_id r.name cls pp r.mandatory r.multiple r.webm
            r.minver r.maxver r.kwargs)) →
    DictObjs P s → loadRows s rows = .ok s' → DictObjs P s' := by
  intro rows
  induction rows with
  | nil =>
    intro s s' _ hd h
    have hs := (Except.ok.inj h).symm
    subst hs
    exact hd
  | cons r rest ih =>
    intro s s' hrow hd h
    rcases loadRows_cons_elim h with ⟨ha, c, s1, a, s2, hc, hm, hi, hrest⟩ | ⟨ha, hrest⟩
    · obtain ⟨pp, hobj⟩ := mkTag_ok_newObj hm
      have hP : P (mkTagObj r.ebml_id r.name (.handle c) pp r.mandatory r.multiple
          r.webm r.minver r.maxver r.kwargs) :=
        hrow r (List.mem_cons_self r rest) ha (.handle c) pp
      have hd1 : DictObjs P s1 := dictObjs_mkTag hPc hd hm
      have hd2 : DictObjs P s2 := dictObjs_insert hd1 hobj hP hi
      refine ih ?_ hd2 hrest
      intro r2 hr2 hact2 cls2 pp2
      have he1 := mkTag_ok_frame hm
      have he2 := insert_tagV_frame hi
      have hw : s2.is_webm = s.is_webm := by rw [he2.2.2.2.1, he1.2.2.2.2.1]
      have hv : s2.version = s.version := by rw [he2.2.2.1, he1.2.2.2.1]
      rw [hw, hv] at hact2
      exact hrow r2 (List.mem_cons_of_mem _ hr2) hact2 cls2 pp2
    · exact ih (fun r2 hr2 => hrow r2 (List.mem_cons_of_mem _ hr2)) hd hrest

theorem dictObjs_applyOvrList {P : TagObj → Prop}
    (hPs : ∀ (u : TagObj) (attr : OvrAttr), P u → P (setAttr u attr)) :
    ∀ (l : List (String × List OvrAttr)) (s : RegState),
    DictObjs P s → DictObjs P (applyOvrList s l) := by
  have hfold : ∀ (attrs : List OvrAttr) (u : TagObj), P u → P (attrs.foldl setAttr u) := by
    intro attrs
    induction attrs with
    | nil => intro u hP; exact hP
    | cons attr rest ih => intro u hP; exact ih _ (hPs u attr hP)
  intro l
  induction l with
  | nil => intro s hd; exact hd
  | cons q rest ih =>
    intro s hd
    obtain ⟨n, attrs⟩ := q
    cases hf : dictFind s.dict (.nameK n) with
    | none => rw [applyOvrList_cons_none hf]; exact ih s hd
    | some a =>
      cases hg : s.heap[a]? with
      | none => rw [applyOvrList_cons_dangling hf hg]; exact ih s hd
      | some t =>
        rw [applyOvrList_cons_found hf hg]
        apply ih
        intro k b hbf
        have hbf2 : dictFind s.dict k = some b := hbf
        obtain ⟨u, hu, hP⟩ := hd k b hbf2
        have hblt : b < s.heap.length := by
          by_contra hc
          have hnone : s.heap[b]? = none := List.getElem?_eq_none (by omega)
          rw [hnone] at hu
          exact Option.noConfusion hu
        by_cases hba : b = a
        · subst hba
          rw [hu] at hg
          have hut : u = t := Option.some.inj hg
          refine ⟨attrs.foldl setAttr t, ?_, hfold attrs t (hut ▸ hP)⟩
          show (s.heap.set b (attrs.foldl setAttr t))[b]? = some (attrs.foldl setAttr t)
          exact List.getElem?_set_eq_of_lt _ hblt
        · refine ⟨u, ?_, hP⟩
          show (s.heap.set a (attrs.foldl setAttr t))[b]? = some u
          rw [List.getElem?_set_ne (fun he => hba he.symm)]
          exact hu

theorem dictObjs_applyOverrides {P : TagObj → Prop}
    (hPs : ∀ (u : TagObj) (attr : OvrAttr), P u → P (setAttr u attr))
    {s s' : RegState} (hd : DictObjs P s) (h : applyOverrides s = .ok s') :
    DictObjs P s' := by
  obtain ⟨pw, ph, sf, h1, h2, h3, hs⟩ := applyOverrides_ok_elim h
  subst hs
  exact dictObjs_applyOvrList hPs _ s hd

theorem dictObjs_delayed_init {P : TagObj → Prop}
    (hPc : ∀ (u : TagObj) (l : List Nat), P u → P { u with children := l })
    (hPs : ∀ (u : TagObj) (attr : OvrAttr), P u → P (setAttr u attr))
    {s s' : RegState} (hi : s.initialized = false)
    (hrow : ∀ r ∈ fullRows s, rowActive s.is_webm s.version r = true →
      ∀ (cls : Cls) (pp : Parent),
        P (mkTagObj r.ebml_id r.name cls pp r.mandatory r.multiple r.webm
            r.minver r.maxver r.kwargs))
    (hd : DictObjs P s)
    (h : delayed_init s = .ok s') : DictObjs P s' := by
  obtain ⟨s2, hl, ho⟩ := delayed_init_elim hi h
  have hd1 : DictObjs P { s with
      initialized := true,
      tag_data := s.tag_data ++ [libInternalRow, libInternal2Row] } :=
    fun k b hf => hd k b hf
  have hrow1 : ∀ r ∈ s.tag_data ++ [libInternalRow, libInternal2Row],
      rowActive ({ s with
          initialized := true,
          tag_data := s.tag_data ++ [libInternalRow, libInternal2Row] } : RegState).is_webm
        ({ s with
          initialized := true,
          tag_data := s.tag_data ++ [libInternalRow, libInternal2Row] } : RegState).version
        r = true →
      ∀ (cls : Cls) (pp : Parent),
        P (mkTagObj r.ebml_id r.name cls pp r.mandatory r.multiple r.webm
            r.minver r.maxver r.kwargs) :=
    fun r hr ha cls pp => hrow r hr ha cls pp
  have hd2 : DictObjs P s2 := dictObjs_loadRows hPc hrow1 hd1 hl
  exact dictObjs_applyOverrides hPs hd2 ho

/-! ## Which names get registered -/

theorem loadRows_name : ∀ {rows : List TagRow} {s s' : RegState},
    loadRows s rows = .ok s' →
    ∀ n, (dictFind s'.dict (.nameK n)).isSome = true ↔
      ((dictFind s.dict (.nameK n)).isSome = true ∨
        ∃ r ∈ rows, rowActive s.is_webm s.version r = true ∧ r.name = n) := by
  intro rows
  induction rows with
  | nil =>
    intro s s' h n
    have hs := (Except.ok.inj h).symm
    subst hs
    simp
  | cons r rest ih =>
    intro s s' h n
    rcases loadRows_cons_elim h with ⟨ha, c, s1, a, s2, hc, hm, hi, hrest⟩ | ⟨ha, hrest⟩
    · obtain ⟨t, hg, hs2⟩ := insert_tagV_elim hi
      obtain ⟨pp, hobj⟩ := mkTag_ok_newObj hm
      rw [hobj] at hg
      have ht : t = mkTagObj r.ebml_id r.name (.handle c) pp r.mandatory r.multiple
          r.webm r.minver r.maxver r.kwargs := (Option.some.inj hg).symm
      have htn : t.name = r.name := by rw [ht]; rfl
      have hd1 : s1.dict = s.dict := (mkTag_ok_frame hm).2.1
      have he1 := mkTag_ok_frame hm
      have he2 := insert_tagV_frame hi
      have hw : s2.is_webm = s.is_webm := by rw [he2.2.2.2.1, he1.2.2.2.2.1]
      have hv : s2.version = s.version := by rw [he2.2.2.1, he1.2.2.2.1]
      have ihh := ih hrest n
      rw [hw, hv] at ihh
      have hfind : dictFind s2.dict (.nameK n) =
          if n = r.name then some a else dictFind s.dict (.nameK n) := by
        by_cases hn : n = r.name
        · rw [if_pos hn, hs2]
          show dictFind (dictSet (dictSet s1.dict (.idK t.ebml_id) a) (.nameK t.name) a)
            (.nameK n) = some a
          rw [show KeyT.nameK n = KeyT.nameK t.name from by rw [htn, hn]]
          exact dictFind_dictSet_self _ _ _
        · rw [if_neg hn, hs2]
          show dictFind (dictSet (dictSet s1.dict (.idK t.ebml_id) a) (.nameK t.name) a)
            (.nameK n) = dictFind s.dict (.nameK n)
          rw [dictFind_dictSet_ne _ _ _ _
            (fun he => hn ((KeyT.nameK.inj he).trans htn))]
          rw [dictFind_dictSet_ne _ _ _ _ (by simp)]
          rw [hd1]
      rw [ihh, hfind]
      by_cases hn : n = r.name
      · rw [if_pos hn]
        constructor
        · intro _
          right
          exact ⟨r, List.mem_cons_self r rest, ha, hn.symm⟩
        · intro _
          left
          rfl
      · rw [if_neg hn]
        constructor
        · rintro (h1 | ⟨r2, hr2, hact, hnm⟩)
          · left; exact h1
          · right; exact ⟨r2, List.mem_cons_of_mem _ hr2, hact, hnm⟩
        · rintro (h1 | ⟨r2, hr2, hact, hnm⟩)
          · left; exact h1
          · rcases List.mem_cons.mp hr2 with heq | hr2a
            · subst heq
              exact absurd hnm.symm hn
            · right; exact ⟨r2, hr2a, hact, hnm⟩
    · have ihh := ih hrest n
      rw [ihh]
      constructor
      · rintro (h1 | ⟨r2, hr2, hact, hnm⟩)
        · left; exact h1
        · right; exact ⟨r2, List.mem_cons_of_mem _ hr2, hact, hnm⟩
      · rintro (h1 | ⟨r2, hr2, hact, hnm⟩)
        · left; exact h1
        · rcases List.mem_cons.mp hr2 with heq | hr2a
          · subst heq
            rw [ha] at hact
            exact absurd hact (by simp)
          · right; exact ⟨r2, hr2a, hact, hnm⟩

theorem delayed_init_name {s s' : RegState} (hi : s.initialized = false)
    (h : delayed_init s = .ok s') (n : String) :
    (dictFind s'.dict (.nameK n)).isSome = true ↔
      ((dictFind s.dict (.nameK n)).isSome = true ∨
       ∃ r ∈ fullRows s, rowActive s.is_webm s.version r = true ∧ r.name = n) := by
  obtain ⟨s2, hl, ho⟩ := delayed_init_elim hi h
  have hdict : s'.dict = s2.dict := (applyOverrides_ok_frame ho).1
  rw [hdict]
  exact loadRows_name hl n

theorem rowActive_matroska (v : Nat) (r : TagRow) :
    rowActive false v r = true ↔ (r.minver ≤ v ∧ v ≤ r.maxver) := by
  show (!(decide (v < r.minver) || decide (v > r.maxver))) = true ↔ _
  simp only [Bool.not_eq_true', Bool.or_eq_false_iff, decide_eq_false_iff_not, not_lt]

theorem set_doc_webm_eq (s : RegState) (v : Nat) :
    set_doc_type_and_version s "webm" v =
      delayed_init
        { s with
          is_webm := true,
          version := v,
          initialized := false,
          dict := [] } := by
  unfold set_doc_type_and_version
  rw [if_pos rfl]

theorem set_doc_matroska_eq (s : RegState) (v : Nat) :
    set_doc_type_and_version s "matroska" v =
      delayed_init
        { s with
          is_webm := false,
          version := v,
          initialized := false,
          dict := [] } := by
  unfold set_doc_type_and_version
  rw [if_neg (by decide), if_pos rfl]

/-! ## Claim C3: profile filtering -/

/-- C3: after switching to the webm profile every registered descriptor
is web-eligible; after switching to the full (matroska) profile at
version v every registered descriptor's version interval contains v,
and (for a static table with pairwise distinct row names) a row's
descriptor is registered exactly when its interval contains v. -/
theorem C3_profile_filtering (s : RegState) (v : Nat) (s' : RegState) :
    (set_doc_type_and_version s "webm" v = .ok s' →
      ∀ (k : KeyT) (b : Nat) (t : TagObj), dictFind s'.dict k = some b →
        s'.heap[b]? = some t → t.webm = true) ∧
    (set_doc_type_and_version s "matroska" v = .ok s' →
      (∀ (k : KeyT) (b : Nat) (t : TagObj), dictFind s'.dict k = some b →
        s'.heap[b]? = some t → t.minver ≤ v ∧ v ≤ t.maxver) ∧
      ((∀ r1 ∈ fullRows s, ∀ r2 ∈ fullRows s, r1.name = r2.name → r1 = r2) →
        ∀ r ∈ fullRows s,
          ((r.minver ≤ v ∧ v ≤ r.maxver) ↔
            (dictFind s'.dict (.nameK r.name)).isSome = true))) := by
  constructor
  · intro h k b t hf ht
    rw [set_doc_webm_eq] at h
    have hPs : ∀ (u : TagObj) (attr : OvrAttr), u.webm = true →
        (setAttr u attr).webm = true := by
      intro u attr hu
      cases attr <;> exact hu
    have hd2 : DictObjs (fun u => u.webm = true) s' :=
      @dictObjs_delayed_init (fun u => u.webm = true) (fun u l hu => hu) hPs
        _ s' rfl
        (by
          intro r hr ha cls pp
          have ha2 : r.webm = true := ha
          exact ha2)
        (fun k2 b2 hf2 => Option.noConfusion hf2)
        h
    obtain ⟨u, hu, hP⟩ := hd2 k b hf
    rw [ht] at hu
    have htu : t = u := Option.some.inj hu
    rw [htu]
    exact hP
  · intro h
    rw [set_doc_matroska_eq] at h
    constructor
    · intro k b t hf ht
      have hPs : ∀ (u : TagObj) (attr : OvrAttr),
          (u.minver ≤ v ∧ v ≤ u.maxver) →
          ((setAttr u attr).minver ≤ v ∧ v ≤ (setAttr u attr).maxver) := by
        intro u attr hu
        cases attr <;> exact hu
      have hd2 : DictObjs (fun u => u.minver ≤ v ∧ v ≤ u.maxver) s' :=
        @dictObjs_delayed_init (fun u => u.minver ≤ v ∧ v ≤ u.maxver)
          (fun u l hu => hu) hPs
          _ s' rfl
          (by
            intro r hr ha cls pp
            exact (rowActive_matroska v r).mp ha)
          (fun k2 b2 hf2 => Option.noConfusion hf2)
          h
      obtain ⟨u, hu, hP⟩ := hd2 k b hf
      rw [ht] at hu
      have htu : t = u := Option.some.inj hu
      rw [htu]
      exact hP
    · intro hdist r hr
      have hname := delayed_init_name rfl h r.name
      constructor
      · intro hbounds
        rw [hname]
        right
        exact ⟨r, hr, (rowActive_matroska v r).mpr hbounds, rfl⟩
      · intro hsome
        rw [hname] at hsome
        rcases hsome with h1 | ⟨r2, hr2, hact, hnm⟩
        · have h2 : (dictFind ([] : List (KeyT × Nat)) (.nameK r.name)).isSome = true := h1
          simp [dictFind] at h2
        · have hr2r : r2 = r := hdist r2 hr2 r hr hnm
          subst hr2r
          exact (rowActive_matroska v r2).mp hact

/-- C3, witness at the concrete stand-in table: after the webm switch
the registered PixelWidth object is web-eligible; after the matroska
switch at version 2 the row restricted to versions 3-4 is exactly not
registered, and an always-active row exactly is. -/
theorem C3_witness :
    (mkTagObj 1 "PixelWidth" (.handle .ElementUnsigned) .noneP false true true 1 4
        {}).webm = true ∧
    (((wRow 10 "LateThing" true 3 4).minver ≤ 2 ∧
        2 ≤ (wRow 10 "LateThing" true 3 4).maxver) ↔
      (dictFind wV2.dict (.nameK "LateThing")).isSome = true) ∧
    (((wRow 9 "NonWebThing" false 1 4).minver ≤ 2 ∧
        2 ≤ (wRow 9 "NonWebThing" false 1 4).maxver) ↔
      (dictFind wV2.dict (.nameK "NonWebThing")).isSome = true) := by
  refine ⟨?_, ?_, ?_⟩
  · exact (C3_profile_filtering w0 4 wWebm).1 rfl (.nameK "PixelWidth") 0
      (mkTagObj 1 "PixelWidth" (.handle .ElementUnsigned) .noneP false true true 1 4 {})
      rfl rfl
  · exact ((C3_profile_filtering w0 2 wV2).2 rfl).2 (by decide)
      (wRow 10 "LateThing" true 3 4) (by decide)
  · exact ((C3_profile_filtering w0 2 wV2).2 rfl).2 (by decide)
      (wRow 9 "NonWebThing" false 1 4) (by decide)

/-! ## Name-key consistency and the override pass -/

theorem setAttr_name (t : TagObj) (attr : OvrAttr) : (setAttr t attr).name = t.name := by
  cases attr <;> rfl

theorem foldl_setAttr_name (attrs : List OvrAttr) : ∀ (t : TagObj),
    (attrs.foldl setAttr t).name = t.name := by
  induction attrs with
  | nil => intro t; rfl
  | cons attr rest ih => intro t; rw [List.foldl_cons, ih, setAttr_name]

theorem nameConsistent_insert {s s' : RegState} {a : Nat} {t : TagObj}
    (hnc : NameConsistent s) (ht : s.heap[a]? = some t)
    (h : TagDict.insert s (.tagV a) = .ok s') : NameConsistent s' := by
  obtain ⟨t2, hg, hs⟩ := insert_tagV_elim h
  rw [ht] at hg
  have ht2 : t2 = t := (Option.some.inj hg).symm
  rw [ht2] at hs
  subst hs
  intro n b hf
  have hf2 : dictFind (dictSet (dictSet s.dict (.idK t.ebml_id) a) (.nameK t.name) a)
      (.nameK n) = some b := hf
  by_cases h1 : n = t.name
  · subst h1
    rw [dictFind_dictSet_self] at hf2
    have hb : b = a := (Option.some.inj hf2).symm
    subst hb
    exact ⟨t, ht, rfl⟩
  · rw [dictFind_dictSet_ne _ _ _ _ (fun he => h1 (KeyT.nameK.inj he))] at hf2
    rw [dictFind_dictSet_ne _ _ _ _ (by simp)] at hf2
    exact hnc n b hf2

theorem nameConsistent_mkTag {s : RegState} {i : Int} {nm : String} {cls : Cls}
    {pr : ParentArg} {ma mu wb : Bool} {mn mx : Nat} {kw : Kwargs}
    {s' : RegState} {a : Nat}
    (hnc : NameConsistent s)
    (h : mkTag s i nm cls pr ma mu wb mn mx kw = .ok (s', a)) : NameConsistent s' := by
  intro n b hf
  rw [(mkTag_ok_frame h).2.1] at hf
  obtain ⟨t, ht, hname⟩ := hnc n b hf
  rcases mkTag_ok_oldObj h b t ht with h1 | h1
  · exact ⟨t, h1, hname⟩
  · exact ⟨_, h1, hname⟩

theorem nameConsistent_loadRows : ∀ {rows : List TagRow} {s s' : RegState},
    NameConsistent s → loadRows s rows = .ok s' → NameConsistent s' := by
  intro rows
  induction rows with
  | nil =>
    intro s s' hnc h
    have hs := (Except.ok.inj h).symm
    subst hs
    exact hnc
  | cons r rest ih =>
    intro s s' hnc h
    rcases loadRows_cons_elim h with ⟨ha, c, s1, a, s2, hc, hm, hi, hrest⟩ | ⟨ha, hrest⟩
    · obtain ⟨pp, hobj⟩ := mkTag_ok_newObj hm
      exact ih (nameConsistent_insert (nameConsistent_mkTag hnc hm) hobj hi) hrest
    · exact ih hnc hrest

theorem nameConsistent_set {s : RegState} {a : Nat} {t : TagObj} (attrs : List OvrAttr)
    (hnc : NameConsistent s) (hg : s.heap[a]? = some t) :
    NameConsistent { s with heap := s.heap.set a (attrs.foldl setAttr t) } := by
  have halt : a < s.heap.length := by
    by_contra hc
    have hnone : s.heap[a]? = none := List.getElem?_eq_none (by omega)
    rw [hnone] at hg
    exact Option.noConfusion hg
  intro n b hf
  have hf2 : dictFind s.dict (.nameK n) = some b := hf
  obtain ⟨u, hu, hname⟩ := hnc n b hf2
  by_cases hba : b = a
  · subst hba
    rw [hu] at hg
    have hut : u = t := Option.some.inj hg
    refine ⟨attrs.foldl setAttr t, ?_, ?_⟩
    · show (s.heap.set b (attrs.foldl setAttr t))[b]? = some (attrs.foldl setAttr t)
      exact List.getElem?_set_eq_of_lt _ halt
    · rw [foldl_setAttr_name, ← hut]
      exact hname
  · refine ⟨u, ?_, hname⟩
    show (s.heap.set a (attrs.foldl setAttr t))[b]? = some u
    rw [List.getElem?_set_ne (fun he => hba he.symm)]
    exact hu

theorem applyOvrList_untouched :
    ∀ (l : List (String × List OvrAttr)) (s : RegState) (b : Nat) (u : TagObj),
    NameConsistent s → s.heap[b]? = some u →
    (∀ q ∈ l, q.1 ≠ u.name) →
    (applyOvrList s l).heap[b]? = some u := by
  intro l
  induction l with
  | nil => intro s b u _ hu _; exact hu
  | cons q rest ih =>
    intro s b u hnc hu hne
    obtain ⟨n, attrs⟩ := q
    cases hf : dictFind s.dict (.nameK n) with
    | none =>
      rw [applyOvrList_cons_none hf]
      exact ih s b u hnc hu (fun q2 hq2 => hne q2 (List.mem_cons_of_mem _ hq2))
    | some a =>
      cases hg : s.heap[a]? with
      | none =>
        rw [applyOvrList_cons_dangling hf hg]
        exact ih s b u hnc hu (fun q2 hq2 => hne q2 (List.mem_cons_of_mem _ hq2))
      | some t =>
        rw [applyOvrList_cons_found hf hg]
        have hab : a ≠ b := by
          intro he
          subst he
          rw [hu] at hg
          obtain ⟨t2, hg2, hn2⟩ := hnc n a hf
          rw [hu] at hg2
          have ht2u : t2 = u := (Option.some.inj hg2).symm
          exact hne (n, attrs) (List.mem_cons_self _ _) (by rw [← ht2u, hn2])
        exact ih { s with heap := s.heap.set a (attrs.foldl setAttr t) } b u
          (nameConsistent_set attrs hnc hg)
          (show (s.heap.set a (attrs.foldl setAttr t))[b]? = some u by
            rw [List.getElem?_set_ne hab]; exact hu)
          (fun q2 hq2 => hne q2 (List.mem_cons_of_mem _ hq2))

theorem attrHolds_setAttr_self (t : TagObj) (attr : OvrAttr) :
    AttrHolds (setAttr t attr) attr := by
  cases attr <;> rfl

theorem attrHolds_setAttr_other {a1 a2 : OvrAttr} (h : kindOf a1 ≠ kindOf a2)
    (t : TagObj) (hh : AttrHolds t a1) : AttrHolds (setAttr t a2) a1 := by
  cases a1 <;> cases a2 <;> first
    | exact hh
    | exact absurd rfl h

theorem attrHolds_foldl {a : OvrAttr} : ∀ (attrs : List OvrAttr) (t : TagObj),
    (∀ b ∈ attrs, kindOf a ≠ kindOf b) → AttrHolds t a →
    AttrHolds (attrs.foldl setAttr t) a := by
  intro attrs
  induction attrs with
  | nil => intro t _ hh; exact hh
  | cons b rest ih =>
    intro t hne hh
    rw [List.foldl_cons]
    exact ih (setAttr t b)
      (fun b2 hb2 => hne b2 (List.mem_cons_of_mem _ hb2))
      (attrHolds_setAttr_other (hne b (List.mem_cons_self _ _)) t hh)

theorem foldl_setAttr_applied :
    ∀ (attrs : List OvrAttr),
    attrs.Pairwise (fun a1 a2 => kindOf a1 ≠ kindOf a2) →
    ∀ (t : TagObj), OvrApplied attrs (attrs.foldl setAttr t) := by
  intro attrs
  induction attrs with
  | nil => intro _ t attr hmem; cases hmem
  | cons a rest ih =>
    intro hpw t attr hmem
    have hpw2 := List.pairwise_cons.mp hpw
    rcases List.mem_cons.mp hmem with heq | hmem2
    · subst heq
      rw [List.foldl_cons]
      exact attrHolds_foldl rest (setAttr t attr) hpw2.1 (attrHolds_setAttr_self t attr)
    · rw [List.foldl_cons]
      exact ih hpw2.2 (setAttr t a) attr hmem2

theorem applyOvrList_applied :
    ∀ (l : List (String × List OvrAttr)) (s : RegState),
    NameConsistent s →
    l.Pairwise (fun q1 q2 => q1.1 ≠ q2.1) →
    ∀ (n : String) (attrs : List OvrAttr), (n, attrs) ∈ l →
    attrs.Pairwise (fun a1 a2 => kindOf a1 ≠ kindOf a2) →
    ∀ b, dictFind s.dict (.nameK n) = some b →
    ∃ t, (applyOvrList s l).heap[b]? = some t ∧ OvrApplied attrs t := by
  intro l
  induction l with
  | nil =>
    intro s _ _ n attrs hmem
    cases hmem
  | cons q rest ih =>
    intro s hnc hpw n attrs hmem hka b hb
    obtain ⟨n0, attrs0⟩ := q
    have hpw2 := List.pairwise_cons.mp hpw
    rcases List.mem_cons.mp hmem with heq | hmem2
    · have hn0 : n0 = n := (congrArg Prod.fst heq).symm
      have hattrs0 : attrs0 = attrs := (congrArg Prod.snd heq).symm
      subst hn0
      subst hattrs0
      obtain ⟨t, hg, htn⟩ := hnc n0 b hb
      rw [applyOvrList_cons_found hb hg]
      have hblt : b < s.heap.length := by
        by_contra hc
        have hnone : s.heap[b]? = none := List.getElem?_eq_none (by omega)
        rw [hnone] at hg
        exact Option.noConfusion hg
      have hset : ({ s with heap := s.heap.set b (attrs0.foldl setAttr t) } :
          RegState).heap[b]? = some (attrs0.foldl setAttr t) :=
        List.getElem?_set_eq_of_lt _ hblt
      have hname2 : (attrs0.foldl setAttr t).name = n0 := by
        rw [foldl_setAttr_name]; exact htn
      have huntouched := applyOvrList_untouched rest
        { s with heap := s.heap.set b (attrs0.foldl setAttr t) } b
        (attrs0.foldl setAttr t) (nameConsistent_set attrs0 hnc hg) hset
        (by
          intro q2 hq2
          rw [hname2]
          exact fun he => (hpw2.1 q2 hq2) he.symm)
      exact ⟨attrs0.foldl setAttr t, huntouched, foldl_setAttr_applied attrs0 hka t⟩
    · cases hf : dictFind s.dict (.nameK n0) with
      | none =>
        rw [applyOvrList_cons_none hf]
        exact ih s hnc hpw2.2 n attrs hmem2 hka b hb
      | some a =>
        cases hg : s.heap[a]? with
        | none =>
          rw [applyOvrList_cons_dangling hf hg]
          exact ih s hnc hpw2.2 n attrs hmem2 hka b hb
        | some t =>
          rw [applyOvrList_cons_found hf hg]
          exact ih { s with heap := s.heap.set a (attrs0.foldl setAttr t) }
            (nameConsistent_set attrs0 hnc hg) hpw2.2 n attrs hmem2 hka b hb

theorem ovrNames_eq (pw ph sf : Nat) :
    (overridesList pw ph sf).map Prod.fst = ovrNamesList := rfl

theorem ovr_pairwise_names (pw ph sf : Nat) :
    (overridesList pw ph sf).Pairwise (fun q1 q2 => q1.1 ≠ q2.1) := by
  have h1 : ovrNamesList.Pairwise (fun a b => a ≠ b) := by decide
  rw [← ovrNames_eq pw ph sf] at h1
  exact List.pairwise_map.mp h1

theorem ovr_entry_kinds (pw ph sf : Nat) :
    ∀ q ∈ overridesList pw ph sf,
      q.2.Pairwise (fun a1 a2 => kindOf a1 ≠ kindOf a2) := by
  intro q hq
  fin_cases hq <;> simp [kindOf]

/-! ## Claim C4: override application -/

/-- C4: after building the registry under the full-spec profile at
version 4, every registered descriptor whose name has an entry in the
override table carries the override's attribute values (for each
assignment listed in its entry); in particular the descriptor
registered under the name "Segment" has `header_size_min = 8` and the
`ElementSegment` codec binding, regardless of its base row (whose
`header_size_min` would default to 0). -/
theorem C4_overrides (s s' : RegState)
    (h : set_doc_type_and_version s "matroska" 4 = .ok s') :
    ∃ pw ph sf : Nat,
      (∀ (n : String) (attrs : List OvrAttr), (n, attrs) ∈ overridesList pw ph sf →
        ∀ b, dictFind s'.dict (.nameK n) = some b →
          ∃ t, s'.heap[b]? = some t ∧ OvrApplied attrs t) ∧
      (∀ b, dictFind s'.dict (.nameK "Segment") = some b →
        ∃ t, s'.heap[b]? = some t ∧ t.header_size_min = 8 ∧
          t.cls = .handle .ElementSegment) := by
  rw [set_doc_matroska_eq] at h
  obtain ⟨s2, hl, ho⟩ := delayed_init_elim rfl h
  obtain ⟨pw, ph, sf, hpw, hph, hsf, hs2⟩ := applyOverrides_ok_elim ho
  have hnc2 : NameConsistent s2 :=
    nameConsistent_loadRows (fun n b hf => Option.noConfusion hf) hl
  refine ⟨pw, ph, sf, ?_, ?_⟩
  · intro n attrs hmem b hb
    subst hs2
    rw [(applyOvrList_frame _ s2).1] at hb
    exact applyOvrList_applied (overridesList pw ph sf) s2 hnc2
      (ovr_pairwise_names pw ph sf) n attrs hmem
      (ovr_entry_kinds pw ph sf _ hmem) b hb
  · intro b hb
    subst hs2
    rw [(applyOvrList_frame _ s2).1] at hb
    have hseg := applyOvrList_applied (overridesList pw ph sf) s2 hnc2
      (ovr_pairwise_names pw ph sf) "Segment"
      [.clsA (.handle .ElementSegment), .headerSizeMinA 8]
      (List.mem_cons_of_mem _ (List.mem_cons_of_mem _ (List.mem_cons_of_mem _
        (List.mem_cons_self _ _))))
      (by decide) b hb
    obtain ⟨t, ht, happ⟩ := hseg
    exact ⟨t, ht, happ (.headerSizeMinA 8) (by simp),
      happ (.clsA (.handle .ElementSegment)) (by simp)⟩

/-- C4, witness: in the registry built from the concrete stand-in table
under (matroska, 4), the descriptor registered under "Segment" has the
overridden minimal header length 8 although its base row carries the
default 0. -/
theorem C4_witness :
    (wV4.heap[3]?).map TagObj.header_size_min = some 8 ∧
    (wTable.map (fun r => r.kwargs.header_size_min.getD 0))[3]? = some 0 := by
  constructor
  · obtain ⟨pw, ph, sf, hgen, hseg⟩ := C4_overrides w0 wV4 rfl
    obtain ⟨t, ht, h8, hcls⟩ := hseg 3 rfl
    rw [ht]
    simp [h8]
  · rfl

/-! ## The external table and the internal-use rows -/

theorem loadRows_cons_eq (s : RegState) (r : TagRow) (rest : List TagRow) :
    loadRows s (r :: rest) =
      if rowActive s.is_webm s.version r then
        match loadRow s r with
        | .error e => .error e
        | .ok s2 => loadRows s2 rest
      else loadRows s rest := rfl

theorem loadRow_wildcard (sA : RegState) (r : TagRow) (c : ClsHandle)
    (hc : resolveCls r.cls_name = some c)
    (hp : r.parent = .wildcardA) :
    loadRow sA r = .ok
      { sA with
        heap := sA.heap ++ [mkTagObj r.ebml_id r.name (.handle c) .wildcard
          r.mandatory r.multiple r.webm r.minver r.maxver r.kwargs],
        dict := dictSet (dictSet sA.dict (.idK r.ebml_id) sA.heap.length)
          (.nameK r.name) sA.heap.length } := by
  unfold loadRow
  rw [hc, hp]
  show TagDict.insert
      { sA with heap := sA.heap ++ [mkTagObj r.ebml_id r.name (.handle c) .wildcard
          r.mandatory r.multiple r.webm r.minver r.maxver r.kwargs] }
      (.tagV sA.heap.length) = _
  rw [insert_ok _ sA.heap.length
    (mkTagObj r.ebml_id r.name (.handle c) .wildcard
      r.mandatory r.multiple r.webm r.minver r.maxver r.kwargs)
    (List.getElem?_concat_length sA.heap _)]
  rfl

theorem loadRows_wildcard_cons (sA : RegState) (r : TagRow) (rest : List TagRow)
    (c : ClsHandle)
    (ha : rowActive sA.is_webm sA.version r = true)
    (hc : resolveCls r.cls_name = some c)
    (hp : r.parent = .wildcardA) :
    loadRows sA (r :: rest) =
      loadRows
        { sA with
          heap := sA.heap ++ [mkTagObj r.ebml_id r.name (.handle c) .wildcard
            r.mandatory r.multiple r.webm r.minver r.maxver r.kwargs],
          dict := dictSet (dictSet sA.dict (.idK r.ebml_id) sA.heap.length)
            (.nameK r.name) sA.heap.length }
        rest := by
  rw [loadRows_cons_eq, if_pos ha, loadRow_wildcard sA r c hc hp]

theorem internal_tail_state (sA s2 : RegState)
    (hact : rowActive sA.is_webm sA.version libInternalRow = true)
    (h : loadRows sA [libInternalRow, libInternal2Row] = .ok s2) :
    dictFind s2.dict (.nameK "LibInternal") = some sA.heap.length ∧
    dictFind s2.dict (.nameK "LibInternal2") = some (sA.heap.length + 1) ∧
    dictFind s2.dict (.idK INTERNAL_ID) = some (sA.heap.length + 1) ∧
    s2.heap[sA.heap.length]? = some libInternalObj ∧
    s2.heap[sA.heap.length + 1]? = some libInternal2Obj := by
  rw [loadRows_wildcard_cons sA libInternalRow _ .ElementPlaceholder hact rfl rfl] at h
  rw [loadRows_wildcard_cons _ libInternal2Row _ .ElementPlaceholder (by exact hact) rfl rfl] at h
  have hs2 := (Except.ok.inj h).symm
  subst hs2
  refine ⟨?_, ?_, ?_, ?_, ?_⟩
  · show dictFind (dictSet (dictSet (dictSet (dictSet sA.dict (.idK INTERNAL_ID)
        sA.heap.length) (.nameK "LibInternal") sA.heap.length) (.idK INTERNAL_ID) _)
        (.nameK "LibInternal2") _) (.nameK "LibInternal") = some sA.heap.length
    rw [dictFind_dictSet_ne _ _ _ _ (by decide)]
    rw [dictFind_dictSet_ne _ _ _ _ (by decide)]
    exact dictFind_dictSet_self _ _ _
  · show dictFind (dictSet _ (.nameK "LibInternal2")
        ((sA.heap ++ [libInternalObj]).length)) (.nameK "LibInternal2")
      = some (sA.heap.length + 1)
    rw [dictFind_dictSet_self]
    simp
  · show dictFind (dictSet (dictSet _ (.idK INTERNAL_ID)
        ((sA.heap ++ [libInternalObj]).length)) (.nameK "LibInternal2") _)
        (.idK INTERNAL_ID) = some (sA.heap.length + 1)
    rw [dictFind_dictSet_ne _ _ _ _ (by decide)]
    rw [dictFind_dictSet_self]
    simp
  · show ((sA.heap ++ [libInternalObj]) ++ [libInternal2Obj])[sA.heap.length]?
      = some libInternalObj
    rw [List.getElem?_append_left (by simp)]
    exact List.getElem?_concat_length _ _
  · show ((sA.heap ++ [libInternalObj]) ++ [libInternal2Obj])[sA.heap.length + 1]?
      = some libInternal2Obj
    rw [show sA.heap.length + 1 = (sA.heap ++ [libInternalObj]).length by simp]
    exact List.getElem?_concat_length _ _

theorem loadRows_append : ∀ (l1 l2 : List TagRow) (s : RegState),
    loadRows s (l1 ++ l2) =
      match loadRows s l1 with
      | .error e => .error e
      | .ok s1 => loadRows s1 l2 := by
  intro l1
  induction l1 with
  | nil => intro l2 s; rfl
  | cons r rest ih =>
    intro l2 s
    rw [show (r :: rest) ++ l2 = r :: (rest ++ l2) from rfl]
    rw [loadRows_cons_eq s r (rest ++ l2), loadRows_cons_eq s r rest]
    by_cases ha : rowActive s.is_webm s.version r = true
    · rw [if_pos ha, if_pos ha]
      cases hl : loadRow s r with
      | error e => rfl
      | ok s2 =>
        show loadRows s2 (rest ++ l2) = _
        rw [ih l2 s2]
    · rw [if_neg ha, if_neg ha]
      exact ih l2 s

theorem delayed_init_tag_data {s s' : RegState} (h : delayed_init s = .ok s')
    (hi : s.initialized = false) :
    s'.tag_data = s.tag_data ++ [libInternalRow, libInternal2Row] := by
  obtain ⟨s2, hl, ho⟩ := delayed_init_elim hi h
  have h1 := loadRows_const hl
  have h2 := (applyOverrides_ok_frame ho).2.2.2.2
  rw [h2, h1.2.2.2]

theorem set_doc_tag_data {s s' : RegState} {dt : String} {v : Nat}
    (h : set_doc_type_and_version s dt v = .ok s') :
    s'.tag_data = s.tag_data ++ [libInternalRow, libInternal2Row] := by
  by_cases hdt : dt = "webm"
  · subst hdt
    rw [set_doc_webm_eq] at h
    have h2 := delayed_init_tag_data h rfl
    exact h2
  · by_cases hdt2 : dt = "matroska"
    · subst hdt2
      rw [set_doc_matroska_eq] at h
      have h2 := delayed_init_tag_data h rfl
      exact h2
    · unfold set_doc_type_and_version at h
      rw [if_neg hdt, if_neg hdt2] at h
      exact Except.noConfusion h

theorem profileChanges_tag_data : ∀ (dt : String) (v n : Nat) (s s' : RegState),
    profileChanges dt v s n = .ok s' →
    s'.tag_data.length = s.tag_data.length + 2 * n := by
  intro dt v n
  induction n with
  | zero =>
    intro s s' h
    have hs := (Except.ok.inj h).symm
    subst hs
    simp
  | succ n ih =>
    intro s s' h
    have h2 : (match set_doc_type_and_version s dt v with
        | .error e => (Except.error e : Except PyError RegState)
        | .ok s1 => profileChanges dt v s1 n) = .ok s' := h
    cases hset : set_doc_type_and_version s dt v with
    | error e =>
      rw [hset] at h2
      exact Except.noConfusion h2
    | ok s1 =>
      rw [hset] at h2
      have h3 := ih s1 s' h2
      have h4 := set_doc_tag_data hset
      rw [h4, List.length_append] at h3
      rw [h3]
      simp
      omega

/-! ## Claim C10: cumulative mutation of the external table -/

/-- C10: every run of the lazy initializer appends the two internal-use
rows (both with the reserved id 66) to the external static table before
loading it; a profile change re-runs initialization, so n successive
profile changes grow the table by 2*n rows; and the duplicate rows do
not change what the registry holds under the internal keys: after any
successful initialization the name key "LibInternal" yields exactly the
canonical first internal object, and "LibInternal2" and the id key 66
yield the canonical second one. -/
theorem C10_external_table :
    (∀ s s' : RegState, delayed_init s = .ok s' → s.initialized = false →
      s'.tag_data = s.tag_data ++ [libInternalRow, libInternal2Row]) ∧
    (∀ (s : RegState) (dt : String) (v : Nat) (s' : RegState),
      set_doc_type_and_version s dt v = .ok s' →
      s'.tag_data = s.tag_data ++ [libInternalRow, libInternal2Row]) ∧
    (∀ (dt : String) (v n : Nat) (s s' : RegState),
      profileChanges dt v s n = .ok s' →
      s'.tag_data.length = s.tag_data.length + 2 * n) ∧
    (∀ s s' : RegState, delayed_init s = .ok s' → s.initialized = false →
      NameConsistent s →
      rowActive s.is_webm s.version libInternalRow = true →
      ((dictFind s'.dict (.nameK "LibInternal")).bind (fun b => s'.heap[b]?) =
        some libInternalObj ∧
       (dictFind s'.dict (.nameK "LibInternal2")).bind (fun b => s'.heap[b]?) =
        some libInternal2Obj ∧
       (dictFind s'.dict (.idK INTERNAL_ID)).bind (fun b => s'.heap[b]?) =
        some libInternal2Obj)) := by
  refine ⟨fun s s' h hi => delayed_init_tag_data h hi,
    fun s dt v s' h => set_doc_tag_data h,
    profileChanges_tag_data, ?_⟩
  intro s s' h hi hnc hact
  obtain ⟨s2, hl, ho⟩ := delayed_init_elim hi h
  rw [loadRows_append] at hl
  cases hA : loadRows
      { s with
        initialized := true,
        tag_data := s.tag_data ++ [libInternalRow, libInternal2Row] }
      s.tag_data with
  | error e =>
    rw [hA] at hl
    exact Except.noConfusion hl
  | ok sA =>
    rw [hA] at hl
    have hconst := loadRows_const hA
    have hwA : sA.is_webm = s.is_webm := hconst.2.2.1
    have hvA : sA.version = s.version := hconst.2.1
    have hactA : rowActive sA.is_webm sA.version libInternalRow = true := by
      rw [hwA, hvA]
      exact hact
    have hkeys := internal_tail_state sA s2 hactA hl
    have hnc1 : NameConsistent
        { s with
          initialized := true,
          tag_data := s.tag_data ++ [libInternalRow, libInternal2Row] } :=
      fun n b hf => hnc n b hf
    have hncA : NameConsistent sA := nameConsistent_loadRows hnc1 hA
    have hnc2 : NameConsistent s2 := nameConsistent_loadRows hncA hl
    obtain ⟨pw, ph, sf, hpw, hph, hsf, hs'⟩ := applyOverrides_ok_elim ho
    have hdict : s'.dict = s2.dict := by
      rw [hs']
      exact (applyOvrList_frame _ s2).1
    have hq1 : ∀ q ∈ overridesList pw ph sf, q.1 ≠ "LibInternal" := by
      intro q hq he
      have hmem2 : q.1 ∈ ovrNamesList := by
        rw [← ovrNames_eq pw ph sf]
        exact List.mem_map_of_mem _ hq
      rw [he] at hmem2
      exact absurd hmem2 (by decide)
    have hq2 : ∀ q ∈ overridesList pw ph sf, q.1 ≠ "LibInternal2" := by
      intro q hq he
      have hmem2 : q.1 ∈ ovrNamesList := by
        rw [← ovrNames_eq pw ph sf]
        exact List.mem_map_of_mem _ hq
      rw [he] at hmem2
      exact absurd hmem2 (by decide)
    have hheap1 : s'.heap[sA.heap.length]? = some libInternalObj := by
      rw [hs']
      exact applyOvrList_untouched _ s2 _ _ hnc2 hkeys.2.2.2.1 hq1
    have hheap2 : s'.heap[sA.heap.length + 1]? = some libInternal2Obj := by
      rw [hs']
      exact applyOvrList_untouched _ s2 _ _ hnc2 hkeys.2.2.2.2 hq2
    refine ⟨?_, ?_, ?_⟩
    · rw [hdict, hkeys.1]
      show s'.heap[sA.heap.length]? = some libInternalObj
      exact hheap1
    · rw [hdict, hkeys.2.1]
      show s'.heap[sA.heap.length + 1]? = some libInternal2Obj
      exact hheap2
    · rw [hdict, hkeys.2.2.1]
      show s'.heap[sA.heap.length + 1]? = some libInternal2Obj
      exact hheap2

/-- C10, witness at the concrete stand-in table: one profile change adds
exactly the two internal rows, two changes add four rows, and the
internal name key yields the canonical internal object. -/
theorem C10_witness :
    wV4.tag_data = w0.tag_data ++ [libInternalRow, libInternal2Row] ∧
    (getOkD w0 (profileChanges "matroska" 4 w0 2)).tag_data.length =
      w0.tag_data.length + 2 * 2 ∧
    (dictFind wS.dict (.nameK "LibInternal")).bind (fun b => wS.heap[b]?) =
      some libInternalObj :=
  ⟨C10_external_table.2.1 w0 "matroska" 4 wV4 rfl,
   C10_external_table.2.2.1 "matroska" 4 2 w0 _ rfl,
   (C10_external_table.2.2.2 w0 wS rfl rfl (fun n b hf => Option.noConfusion hf)
     (by decide)).1⟩
